import Mathlib

/-!
Verification of the knowledge-ingestion pipeline
(`scripts/knowledge_pipeline.py` and `src/knowledge_base/content_analyzer.py`).

The Python source is shallowly embedded: pure string manipulation becomes
Lean functions on `String` / `List Char`, the intake filesystem becomes an
association list from paths to contents, exceptions become `Except`, and
external collaborators (media extraction, the network calls of the
analyzer, markdown rendering) become injected function parameters, matching
the architecture of the orchestrator.  Python `str.strip` and the regex
digit class are modelled on ASCII characters.
-/

namespace KPipe

/-! ### Python string helpers -/

/-- Characters removed by the sanitizer regex `[\\/:*?"<>|]`. -/
def forbiddenChar (c : Char) : Bool :=
  c = '\\' || c = '/' || c = ':' || c = '*' || c = '?' || c = '\"' ||
    c = '<' || c = '>' || c = '|'

/-- ASCII model of the whitespace set stripped by Python `str.strip()`. -/
def pyIsSpace (c : Char) : Bool :=
  c = ' ' || c = '\t' || c = '\n' || c = '\r' || c = '\x0b' || c = '\x0c'

/-- Python `s.strip()` on the ASCII whitespace model. -/
def pyStrip (s : String) : String :=
  ⟨((s.data.dropWhile pyIsSpace).reverse.dropWhile pyIsSpace).reverse⟩

/-- `KnowledgePipeline._sanitize_filename`: drop the forbidden characters,
truncate to 50 characters, strip, and fall back to `"untitled"`. -/
def sanitizeFilename (name : String) : String :=
  let sanitized : String := ⟨name.data.filter (fun c => !forbiddenChar c)⟩
  let truncated : String :=
    if sanitized.length > 50 then ⟨sanitized.data.take 50⟩ else sanitized
  let stripped := pyStrip truncated
  if stripped = "" then "untitled" else stripped

/-! ### Decimal digit runs (`re.findall` with the digit class, ASCII model) -/

def digitVal (c : Char) : Nat := c.toNat - '0'.toNat

/-- Python `int(...)` on a run of decimal digits. -/
def parseDigits (ds : List Char) : Nat :=
  ds.foldl (fun acc c => acc * 10 + digitVal c) 0

/-- Fuelled worker for `numRuns`; the fuel is an upper bound on the list
length, so the recursion is structural. -/
def numRunsAux : Nat → List Char → List Nat
  | _, [] => []
  | 0, _ :: _ => []
  | fuel + 1, c :: cs =>
    if c.isDigit then
      parseDigits (c :: cs.takeWhile Char.isDigit) ::
        numRunsAux fuel (cs.dropWhile Char.isDigit)
    else
      numRunsAux fuel cs

/-- The values of the maximal decimal-digit runs embedded in a string,
in order of appearance. -/
def numRuns (l : List Char) : List Nat := numRunsAux l.length l

/-- The character of a single decimal digit. -/
def digitChar (n : Nat) : Char := Char.ofNat ('0'.toNat + n)

/-- Fuelled worker for `natDigits` (structural recursion). -/
def natDigitsAux : Nat → Nat → List Char
  | 0, _ => []
  | fuel + 1, n =>
    if n < 10 then [digitChar n]
    else natDigitsAux fuel (n / 10) ++ [digitChar (n % 10)]

/-- Decimal digits of a natural number, most significant first. -/
def natDigits (n : Nat) : List Char := natDigitsAux (n + 1) n

/-- Zero-padding to a fixed width, as in the Python format specs `%02d`
and `%03d` (wider numbers are not truncated). -/
def padNum (w n : Nat) : String :=
  ⟨List.replicate (w - (natDigits n).length) '0' ++ natDigits n⟩

/-- Python `s.startswith(p)`. -/
def strStarts (p s : String) : Bool := decide (p.data <+: s.data)

/-- Python `line.split(":", 1)[1]` for a line that contains a colon. -/
def afterFirstColon (l : String) : String :=
  ⟨(l.data.dropWhile (fun c => c != ':')).tail⟩

/-- Split a character list at a separator; `splitOnChar sep` never returns
an empty list, matching Python `str.split(sep)`. -/
def splitOnChar (sep : Char) : List Char → List (List Char)
  | [] => [[]]
  | c :: cs =>
    match splitOnChar sep cs with
    | [] => if c = sep then [[], []] else [[c]]
    | r :: rs => if c = sep then [] :: r :: rs else (c :: r) :: rs

/-- The lines of a file content, as produced by iterating the file handle
(modelled by splitting on the newline character). -/
def splitLines (s : String) : List String :=
  (splitOnChar '\n' s.data).map (fun l => ⟨l⟩)

/-! ### `generate_entry_id` (content_analyzer.py) -/

/-- The frontmatter scanning loop of `generate_entry_id`: walk the lines of
one markdown file, return the stripped value of the first `id:` line inside
the frontmatter block, stopping at the closing delimiter. -/
def frontmatterId : Bool → List String → Option String
  | _, [] => none
  | inFm, l :: ls =>
    if pyStrip l = "---" then
      if inFm then none else frontmatterId true ls
    else if inFm && "id:".data.isPrefixOf l.data then
      some (pyStrip (afterFirstColon l))
    else frontmatterId inFm ls

/-- The declared `id` of one markdown file, given its full content. -/
def fileId (content : String) : Option String :=
  frontmatterId false (splitLines content)

/-- One step of the `max_num` accumulation of `generate_entry_id`: fold one
metadata file into the running maximum.  An unreadable file (`none`) or a
file without a parsable frontmatter id contributes nothing. -/
def scanFile (pfx : String) (acc : Nat) (file : Option String) : Nat :=
  match file with
  | none => acc
  | some content =>
    match fileId content with
    | none => acc
    | some eid =>
      if strStarts pfx eid then (numRuns eid.data).foldl max acc else acc

/-- The `max_num` computed by the scan loop of `generate_entry_id`. -/
def maxNum (pfx : String) (kb : List (Option String)) : Nat :=
  kb.foldl (scanFile pfx) 0

/-- `generate_entry_id(prefix, knowledge_dir, date)`.  The knowledge base is
the list of markdown files under `knowledge_root` (each either unreadable or
a content string); `ym` is the `%Y%m` rendering of the date argument.  The
Python parameter `prefix` is spelled `pfx` here. -/
def generate_entry_id (pfx ym : String) (kb : List (Option String)) : String :=
  let nextNum := maxNum pfx kb + 1
  if pfx = "QA" then "QA_" ++ padNum 3 nextNum
  else if pfx = "VID" || pfx = "AUD" then
    pfx ++ "_" ++ ym ++ "_" ++ padNum 2 nextNum ++ "_01"
  else if pfx = "BK" then "BK_" ++ padNum 3 nextNum ++ "_P001"
  else pfx ++ "_" ++ ym ++ "_" ++ padNum 3 nextNum

/-- The numeric runs contributed to the scan by one knowledge-base file. -/
def specRuns (pfx : String) (f : Option String) : List Nat :=
  match f.bind fileId with
  | none => []
  | some eid => if strStarts pfx eid then numRuns eid.data else []

/-- Spec-side restatement of the scan (§4.3): the maximum over all embedded
numeric runs of every declared frontmatter id that starts with the prefix,
`0` if there are none; unreadable or malformed files are skipped. -/
def maxSeenSpec (pfx : String) (kb : List (Option String)) : Nat :=
  ((((kb.filterMap (fun f => f.bind fileId)).filter
      (fun e => strStarts pfx e)).map (fun e => numRuns e.data)).flatten).foldr max 0

/-! ### The intake filesystem and the per-file pipeline (knowledge_pipeline.py) -/

/-- A directory of the pipeline's world: the four intake lifecycle
directories and the knowledge tree (one constructor per subdirectory). -/
inductive Dir where
  | raw
  | processing
  | completed
  | failed
  | knowledge (sub : String)
deriving DecidableEq, Repr

/-- A file path: its directory and its file name. -/
structure FPath where
  dir : Dir
  name : String
deriving DecidableEq, Repr

def rawP (f : String) : FPath := ⟨Dir.raw, f⟩
def procP (f : String) : FPath := ⟨Dir.processing, f⟩
def compP (f : String) : FPath := ⟨Dir.completed, f⟩
def failP (f : String) : FPath := ⟨Dir.failed, f⟩

/-- The filesystem: an association list from paths to file contents. -/
abbrev FS := List (FPath × String)

def fsGet (fs : FS) (p : FPath) : Option String :=
  (fs.find? (fun e => e.1 == p)).map (fun e => e.2)

def fsExists (fs : FS) (p : FPath) : Bool := (fsGet fs p).isSome

def fsErase (fs : FS) (p : FPath) : FS := fs.filter (fun e => !(e.1 == p))

def fsWrite (fs : FS) (p : FPath) (c : String) : FS := (p, c) :: fsErase fs p

/-- `shutil.move`: fails when the source does not exist, overwrites the
destination otherwise (rename semantics). -/
def fsMove (fs : FS) (src dst : FPath) : Option FS :=
  match fsGet fs src with
  | none => none
  | some c => some (fsWrite (fsErase fs src) dst c)

/-- Injectable IO faults: whether a given move or write succeeds.  The
per-file pipeline never catches these itself. -/
structure IOFaults where
  moveOk : FPath → FPath → Bool
  writeOk : FPath → Bool

/-- Fault-free IO. -/
def ioAllOk : IOFaults := ⟨fun _ _ => true, fun _ => true⟩

/-- `shutil.move` with injectable faults, as `Except`. -/
def moveF (io : IOFaults) (fs : FS) (src dst : FPath) : Except String FS :=
  if io.moveOk src dst then
    match fsMove fs src dst with
    | some fs' => Except.ok fs'
    | none => Except.error ("FileNotFoundError: " ++ src.name)
  else Except.error ("OSError: move " ++ src.name)

/-- `ExtractedContent` (media_processor.py); image entries reduced to their
paths. -/
structure ExtractedContent where
  text : String
  source_path : String
  file_type : String
  images : List String := []
deriving DecidableEq, Repr

/-- `AnalysisResult` (content_analyzer.py): the dataclass with the defaults
of the source; scores are modelled as rationals, sections and qa_pairs as
pairs of strings. -/
structure AnalysisResult where
  source_path : String := ""
  file_type : String := ""
  category : String := ""
  sub_category : String := ""
  priority : String := "中"
  emotion_tags : List String := []
  expression_tags : List String := []
  title : String := ""
  summary : String := ""
  qa_pairs : List (String × String) := []
  sections : List (String × String) := []
  confidence : Rat := 0
  quality_score : Rat := 0
  full_text : String := ""
  image_descriptions : List String := []
  id_prefix : String := ""
  knowledge_dir : String := ""
  needs_manual_review : Bool := false
  review_reasons : List String := []
  error : String := ""
deriving DecidableEq, Repr

/-- An entry of `report.success`. -/
structure SuccessRecord where
  source : String
  output : FPath
  category : String
  sub_category : String
  priority : String
  confidence : Rat
  quality_score : Rat
  entry_id : String
deriving DecidableEq, Repr

/-- An entry of `report.failed`. -/
structure FailRecord where
  source : String
  error : String
  moved_to : String
deriving DecidableEq, Repr

/-- An entry of `report.skipped_duplicate`. -/
structure SkipRecord where
  source : String
  output : FPath
  reason : String
deriving DecidableEq, Repr

/-- An entry of `report.manual_review`: the success record plus the joined
review reasons. -/
structure ReviewRecord where
  record : SuccessRecord
  reason : String
deriving DecidableEq, Repr

/-- The mutable state of one run: the filesystem, the four report lists of
`PipelineReport`, and a log of the destination writes performed. -/
structure PipeState where
  fs : FS
  success : List SuccessRecord := []
  failed : List FailRecord := []
  skipped : List SkipRecord := []
  manualReview : List ReviewRecord := []
  writeLog : List FPath := []
deriving DecidableEq, Repr

/-- The external collaborators of the orchestrator, and the run's date
component: media extraction (`process_file`, keyed by file name), the
analyzer (`ContentAnalyzer.analyze`), markdown rendering
(`generate_markdown`) and source-name inference (`_infer_source_name`,
string-valued and claim-irrelevant, hence opaque). -/
structure Collab where
  extract : String → Option ExtractedContent
  analyze : ExtractedContent → AnalysisResult
  render : AnalysisResult → String → String → String
  sourceName : String → String
  ym : String

/-- Python `pathlib` suffix rule: the last dot-run, only when the final dot
sits strictly inside the name. -/
def pathSuffix (name : String) : String :=
  let cs := name.data
  match cs.reverse.findIdx? (fun c => c == '.') with
  | none => ""
  | some j =>
    let i := cs.length - 1 - j
    if 0 < i ∧ i < cs.length - 1 then ⟨cs.drop i⟩ else ""

/-- Python `pathlib.Path(...).stem`. -/
def pathStem (name : String) : String :=
  let cs := name.data
  match cs.reverse.findIdx? (fun c => c == '.') with
  | none => name
  | some j =>
    let i := cs.length - 1 - j
    if 0 < i ∧ i < cs.length - 1 then ⟨cs.take i⟩ else name

/-- Python `s.endswith(suf)`. -/
def strEnds (suf s : String) : Bool :=
  suf.data.reverse.isPrefixOf s.data.reverse

/-- Substring containment, Python `needle in hay`. -/
def isSubstr (needle : List Char) : List Char → Bool
  | [] => needle.isEmpty
  | c :: cs => needle.isPrefixOf (c :: cs) || isSubstr needle cs

def isKnowledge : Dir → Bool
  | Dir.knowledge _ => true
  | _ => false

/-- The inputs of the id scan: the contents of the markdown files under the
knowledge tree (`knowledge_dir.rglob`); files of the model are readable. -/
def knowledgeFiles (fs : FS) : List (Option String) :=
  (fs.filter (fun e => isKnowledge e.1.dir && strEnds ".md" e.1.name)).map
    (fun e => some e.2)

/-- The entry id allocated at stage 4 for one file. -/
def entryIdOf (co : Collab) (fs : FS) (result : AnalysisResult) : String :=
  generate_entry_id result.id_prefix co.ym (knowledgeFiles fs)

/-- The sanitized title used in the destination file name. -/
def safeTitleOf (fname : String) (result : AnalysisResult) : String :=
  sanitizeFilename (if result.title = "" then pathStem fname else result.title)

/-- Stage 4's computed destination:
`knowledge/<result.knowledge_dir>/<entry_id>_<safe_title>.md`. -/
def destPath (co : Collab) (fs : FS) (fname : String)
    (result : AnalysisResult) : FPath :=
  ⟨Dir.knowledge result.knowledge_dir,
    entryIdOf co fs result ++ "_" ++ safeTitleOf fname result ++ ".md"⟩

/-- The extractor error sentinel of stage 2: text starting with `[` and
containing the error marker. -/
def isErrorText (t : String) : Bool :=
  strStarts "[" t && isSubstr "エラー".data t.data

/-- Python `"; ".join(...)`. -/
def joinSemicolon : List String → String
  | [] => ""
  | [s] => s
  | s :: rest => s ++ "; " ++ joinSemicolon rest

/-- The failure record appended by the `except` handler. -/
def mkFail (f msg : String) : FailRecord :=
  { source := f, error := msg, moved_to := "intake/failed/" ++ f }

/-- The duplicate-skip record of stage 4. -/
def mkSkip (f : String) (outP : FPath) : SkipRecord :=
  { source := f, output := outP, reason := "同名ファイルが既に存在" }

/-- The success record of stage 5. -/
def mkRecord (f : String) (outP : FPath) (r : AnalysisResult)
    (eid : String) : SuccessRecord :=
  { source := f, output := outP, category := r.category,
    sub_category := r.sub_category, priority := r.priority,
    confidence := r.confidence, quality_score := r.quality_score,
    entry_id := eid }

/-- The manual-review record of stage 5. -/
def mkReview (r : SuccessRecord) (reasons : List String) : ReviewRecord :=
  { record := r, reason := joinSemicolon reasons }

/-- The `except` handler of `_process_single_file`: move the source into
`failed/` (from `processing/` if present, else from `raw/` if present) and
append the failure record.  The moves themselves are not wrapped, so their
IO errors propagate as `.error`. -/
def handleFailure (io : IOFaults) (fname msg : String) (st : PipeState) :
    Except String PipeState :=
  let done := fun (st' : PipeState) =>
    Except.ok { st' with failed := st'.failed ++ [mkFail fname msg] }
  if fsExists st.fs (procP fname) then
    match moveF io st.fs (procP fname) (failP fname) with
    | Except.error e => Except.error e
    | Except.ok fs' => done { st with fs := fs' }
  else if fsExists st.fs (rawP fname) then
    match moveF io st.fs (rawP fname) (failP fname) with
    | Except.error e => Except.error e
    | Except.ok fs' => done { st with fs := fs' }
  else done st

/-- The `try` body of `_process_single_file`: claim, extract, analyze,
allocate the id, duplicate-check, write, complete.  An error carries the
state mutated so far. -/
def tryBody (io : IOFaults) (co : Collab) (st : PipeState) (fname : String) :
    Except (String × PipeState) PipeState :=
  match moveF io st.fs (rawP fname) (procP fname) with
  | Except.error e => Except.error (e, st)
  | Except.ok fs1 =>
    let st1 : PipeState := { st with fs := fs1 }
    match co.extract fname with
    | none => Except.error ("未対応フォーマット: " ++ pathSuffix fname, st1)
    | some extracted =>
      if isErrorText extracted.text then Except.error (extracted.text, st1)
      else
        let result := co.analyze extracted
        if result.error ≠ "" then Except.error (result.error, st1)
        else
          let entryId := entryIdOf co st1.fs result
          let outP := destPath co st1.fs fname result
          if fsExists st1.fs outP then
            let st2 := { st1 with skipped := st1.skipped ++ [mkSkip fname outP] }
            match moveF io st2.fs (procP fname) (compP fname) with
            | Except.error e => Except.error (e, st2)
            | Except.ok fs3 => Except.ok { st2 with fs := fs3 }
          else
            if io.writeOk outP then
              let markdown := co.render result entryId (co.sourceName fname)
              let st2 := { st1 with
                fs := fsWrite st1.fs outP markdown
                writeLog := st1.writeLog ++ [outP] }
              match moveF io st2.fs (procP fname) (compP fname) with
              | Except.error e => Except.error (e, st2)
              | Except.ok fs3 =>
                let record : SuccessRecord := mkRecord fname outP result entryId
                let st3 := { st2 with fs := fs3 }
                let st4 := if result.needs_manual_review then
                    { st3 with manualReview := st3.manualReview ++
                      [mkReview record result.review_reasons] }
                  else st3
                Except.ok { st4 with success := st4.success ++ [record] }
            else Except.error ("OSError: write " ++ outP.name, st1)

/-- `_process_single_file`: the staged body wrapped by the exception
handler.  A `.error` result is an exception escaping the handler itself. -/
def processSingleFile (io : IOFaults) (co : Collab) (st : PipeState)
    (fname : String) : Except String PipeState :=
  match tryBody io co st fname with
  | Except.ok st' => Except.ok st'
  | Except.error (msg, st') => handleFailure io fname msg st'

/-- The per-file fan-out of `run` (stages 2-5); the cooperative
interleaving of `asyncio.gather` is modelled sequentially. -/
def runFiles (io : IOFaults) (co : Collab) :
    PipeState → List String → Except String PipeState
  | st, [] => Except.ok st
  | st, f :: rest =>
    match processSingleFile io co st f with
    | Except.ok st' => runFiles io co st' rest
    | Except.error e => Except.error e

/-- The non-dry-run core of `KnowledgePipeline.run`, given the discovered
file list: fan out over the files starting from an empty report. -/
def runPipeline (io : IOFaults) (co : Collab) (fs0 : FS)
    (files : List String) : Except String PipeState :=
  runFiles io co { fs := fs0 } files

/-- What one fault-free `_process_single_file` call does to the state:
exactly one record for the file lands in exactly one of the three outcome
lists (a manual-review entry, when present, carries the success record),
the file leaves `raw/` and `processing/`, exactly one terminal directory
receives it while the other is untouched, and every non-knowledge path of a
different file name is untouched. -/
def oneFileOutcome (st st' : PipeState) (f : String) : Prop :=
  ((∃ r : SuccessRecord, r.source = f ∧ st'.success = st.success ++ [r] ∧
      st'.failed = st.failed ∧ st'.skipped = st.skipped ∧
      (st'.manualReview = st.manualReview ∨
        ∃ m : ReviewRecord, m.record = r ∧
          st'.manualReview = st.manualReview ++ [m])) ∨
    (∃ e : FailRecord, e.source = f ∧ st'.failed = st.failed ++ [e] ∧
      st'.success = st.success ∧ st'.skipped = st.skipped ∧
      st'.manualReview = st.manualReview) ∨
    (∃ s : SkipRecord, s.source = f ∧ st'.skipped = st.skipped ++ [s] ∧
      st'.success = st.success ∧ st'.failed = st.failed ∧
      st'.manualReview = st.manualReview)) ∧
  fsGet st'.fs (rawP f) = none ∧
  fsGet st'.fs (procP f) = none ∧
  ((fsExists st'.fs (compP f) = true ∧
      fsGet st'.fs (failP f) = fsGet st.fs (failP f)) ∨
    (fsExists st'.fs (failP f) = true ∧
      fsGet st'.fs (compP f) = fsGet st.fs (compP f))) ∧
  (∀ p : FPath, p.name ≠ f → isKnowledge p.dir = false →
    fsGet st'.fs p = fsGet st.fs p)

/-! ### The analysis engine (ContentAnalyzer, content_analyzer.py) -/

/-- The classification dict parsed from a pass-1 response; `none` marks an
absent key. -/
structure ParsedClassification where
  category : Option String := none
  sub_category : Option String := none
  priority : Option String := none
  emotion_tags : Option (List String) := none
  expression_tags : Option (List String) := none
  title : Option String := none
  summary : Option String := none
  confidence : Option Rat := none
  reasoning : Option String := none
deriving DecidableEq, Repr

/-- The outcome of one pass-1 API call up to and including JSON parsing:
a parsed dict, an exception of one of the caught types
(`json.JSONDecodeError`, `IndexError`, `KeyError`), or any other
exception — e.g. an API timeout — which the retry loop does not catch. -/
inductive ApiOutcome where
  | ok (d : ParsedClassification)
  | parseErr (msg : String)
  | otherErr (msg : String)
deriving DecidableEq, Repr

def isParseErr : ApiOutcome → Bool
  | ApiOutcome.parseErr _ => true
  | _ => false

def isOtherErr : ApiOutcome → Bool
  | ApiOutcome.otherErr _ => true
  | _ => false

/-- What one `_pass1_classify` run did: its outcome, the number of API
calls made, and the backoff delays slept, in order. -/
structure Pass1Out where
  result : Except String ParsedClassification
  calls : Nat
  sleeps : List Nat
deriving Repr

/-- The fallback classification returned after all retries fail: every key
present, confidence `0.0`. -/
def pass1Fallback (text : String) : ParsedClassification :=
  { category := some "", sub_category := some "", priority := some "中",
    emotion_tags := some [], expression_tags := some [],
    title := some (if text = "" then "不明"
      else pathStem (⟨text.data.take 50⟩ : String)),
    summary := some "", confidence := some 0, reasoning := some "分類失敗" }

/-- The retry loop of `_pass1_classify`.  `rem` counts the remaining
attempts, `attempt` the current zero-based index; a parse-type error sleeps
`1 * (attempt + 1)` seconds unless it was the final attempt, an uncaught
exception aborts the loop, and exhaustion returns the fallback dict. -/
def pass1Go (retryCount : Nat) (text : String) (api : Nat → ApiOutcome) :
    Nat → Nat → Nat → List Nat → Pass1Out
  | 0, _, calls, sleeps =>
    { result := Except.ok (pass1Fallback text), calls := calls,
      sleeps := sleeps }
  | rem + 1, attempt, calls, sleeps =>
    match api attempt with
    | ApiOutcome.ok d =>
      if d.category.isSome && d.confidence.isSome then
        { result := Except.ok d, calls := calls + 1, sleeps := sleeps }
      else
        pass1Go retryCount text api rem (attempt + 1) (calls + 1) sleeps
    | ApiOutcome.parseErr _ =>
      if attempt < retryCount - 1 then
        pass1Go retryCount text api rem (attempt + 1) (calls + 1)
          (sleeps ++ [1 * (attempt + 1)])
      else
        pass1Go retryCount text api rem (attempt + 1) (calls + 1) sleeps
    | ApiOutcome.otherErr msg =>
      { result := Except.error msg, calls := calls + 1, sleeps := sleeps }

/-- `_pass1_classify` over an attempt oracle. -/
def pass1Classify (retryCount : Nat) (text : String)
    (api : Nat → ApiOutcome) : Pass1Out :=
  pass1Go retryCount text api retryCount 0 0 []

/-- The dict parsed from a pass-2 response. -/
structure ParsedStructure where
  sections : Option (List (String × String)) := none
  qa_pairs : Option (List (String × String)) := none
deriving DecidableEq, Repr

/-- One pass-2 API call: parsed dict, caught exception
(`json.JSONDecodeError`, `IndexError`), or uncaught exception. -/
inductive Api2Outcome where
  | ok (d : ParsedStructure)
  | parseErr (msg : String)
  | otherErr (msg : String)
deriving DecidableEq, Repr

def isOtherErr2 : Api2Outcome → Bool
  | Api2Outcome.otherErr _ => true
  | _ => false

/-- The retry loop of `_pass2_structure`; exhaustion returns the empty
structure dict. -/
def pass2Go (retryCount : Nat) (api : Nat → Api2Outcome) :
    Nat → Nat → Except String ParsedStructure
  | 0, _ => Except.ok { sections := some [], qa_pairs := some [] }
  | rem + 1, attempt =>
    match api attempt with
    | Api2Outcome.ok d =>
      if d.sections.isSome then Except.ok d
      else pass2Go retryCount api rem (attempt + 1)
    | Api2Outcome.parseErr _ => pass2Go retryCount api rem (attempt + 1)
    | Api2Outcome.otherErr msg => Except.error msg

/-- `_pass2_structure` over an attempt oracle. -/
def pass2Structure (retryCount : Nat) (api : Nat → Api2Outcome) :
    Except String ParsedStructure :=
  pass2Go retryCount api retryCount 0

/-- The dict parsed from a pass-3 response; the `corrections` sub-dict is
flattened, with `""` for an absent or falsy value. -/
structure ParsedVerification where
  quality_score : Option Rat := none
  corrections_category : String := ""
  corrections_sub_category : String := ""
  corrections_priority : String := ""
  corrections_title : String := ""
  corrections_summary : String := ""
  issues : List String := []
deriving DecidableEq, Repr

/-- One pass-3 API call; `_pass3_verify` catches every exception. -/
inductive Api3Outcome where
  | ok (d : ParsedVerification)
  | err (msg : String)
deriving DecidableEq, Repr

/-- `_pass3_verify`: on any exception, fall back to a valid verification
whose quality score is the current confidence. -/
def pass3Verify (conf : Rat) (api : Api3Outcome) : ParsedVerification :=
  match api with
  | Api3Outcome.ok d => d
  | Api3Outcome.err _ => { quality_score := some conf }

/-- `VALID_CATEGORIES` (labeling schema). -/
def VALID_CATEGORIES : List String :=
  ["法人保険", "ドクターマーケット", "相続",
   "営業マインド", "営業スキル", "コンプライアンス"]

def VALID_PRIORITIES : List String := ["高", "中", "低"]

def VALID_EMOTION_TAGS : List String :=
  ["励まし", "叱咤", "論理的解説", "共感", "雑談/アイスブレイク", "情熱"]

def VALID_EXPRESSION_TAGS : List String :=
  ["断定", "比喩表現", "関西弁", "厳しい指摘", "問いかけ", "ユーモア"]

/-- `SUBCATEGORY_MAP.get(category, [])`. -/
def SUBCATEGORY_MAP (c : String) : List String :=
  if c = "法人保険" then
    ["決算書分析", "退職金設計", "事業承継", "節税対策", "資金繰り",
     "役員報酬", "福利厚生", "損害保険連携", "法人契約全般"]
  else if c = "ドクターマーケット" then
    ["医療法人設立", "個人開業医", "MS法人", "医師賠償",
     "医療法人の事業承継", "勤務医対策", "開業資金"]
  else if c = "相続" then
    ["相続税対策", "資産承継", "遺言・信託", "納税資金準備",
     "自社株対策", "不動産対策", "二次相続"]
  else if c = "営業マインド" then
    ["プロ意識", "モチベーション", "目標設定", "自己投資",
     "時間管理", "人間力", "成功哲学"]
  else if c = "営業スキル" then
    ["アプローチ", "クロージング", "紹介入手", "話法",
     "ヒアリング", "プレゼンテーション", "反対処理", "電話営業"]
  else if c = "コンプライアンス" then
    ["募集規制", "個人情報保護", "適合性原則", "比較説明",
     "意向把握", "クーリングオフ", "保険業法"]
  else []

/-- `ID_PREFIX_MAP.get(file_type, "ML")`. -/
def ID_PREFIX_MAP (ft : String) : String :=
  if ft = "video" then "VID"
  else if ft = "audio" then "AUD"
  else if ft = "pdf" then "BK"
  else if ft = "docx" then "ML"
  else if ft = "text" then "ML"
  else if ft = "image" then "PR"
  else "ML"

/-- `KNOWLEDGE_DIR_MAP.get(id_prefix, "articles")`. -/
def KNOWLEDGE_DIR_MAP (pfx : String) : String :=
  if pfx = "VID" then "seminars"
  else if pfx = "AUD" then "trainings"
  else if pfx = "QA" then "qa"
  else if pfx = "ML" then "articles"
  else if pfx = "BK" then "articles"
  else if pfx = "TL" then "sales_tools"
  else if pfx = "NL" then "articles"
  else if pfx = "PR" then "sales_tools"
  else "articles"

/-- `_fuzzy_match`: exact match first, then two-sided substring match. -/
def fuzzyMatch (value : String) (candidates : List String) : Option String :=
  if value = "" then none
  else
    match candidates.find? (fun c => c == value) with
    | some c => some c
    | none =>
      candidates.find?
        (fun c => isSubstr c.data value.data || isSubstr value.data c.data)

/-- `_validate_and_fix_labels`. -/
def validateAndFixLabels (r : AnalysisResult) : AnalysisResult :=
  let r1 :=
    if r.category ∈ VALID_CATEGORIES then r
    else
      match fuzzyMatch r.category VALID_CATEGORIES with
      | some best => { r with category := best }
      | none =>
        { r with
          needs_manual_review := true
          review_reasons := r.review_reasons ++
            ["カテゴリ不明: " ++ r.category]
          category := "営業スキル"
          confidence := min r.confidence (0.4 : Rat) }
  let validSubs := SUBCATEGORY_MAP r1.category
  let r2 :=
    if validSubs ≠ [] ∧ r1.sub_category ∉ validSubs then
      match fuzzyMatch r1.sub_category validSubs with
      | some best => { r1 with sub_category := best }
      | none => r1
    else r1
  let r3 :=
    if r2.priority ∈ VALID_PRIORITIES then r2
    else { r2 with priority := "中" }
  { r3 with
    emotion_tags := r3.emotion_tags.filter
      (fun t => VALID_EMOTION_TAGS.contains t)
    expression_tags := r3.expression_tags.filter
      (fun t => VALID_EXPRESSION_TAGS.contains t) }

/-- Render a score with two decimals, modelling the `%.2f` format (rounding
half up on exact rationals). -/
def fmt2 (q : Rat) : String :=
  let np := (q * 100 + 1 / 2).floor.toNat
  (⟨natDigits (np / 100)⟩ : String) ++ "." ++ padNum 2 (np % 100)

/-- `_normalize_terminology`: sequential `str.replace` over the
terminology table (the table's entries are data). -/
def normalizeTerminology (table : List (String × String)) (t : String) :
    String :=
  table.foldl (fun acc p => acc.replace p.1 p.2) t

/-- The network-bound sub-calls of `_analyze_internal`, injected: the text
produced by `_preprocess` (vision and transcript cleanup never raise, every
API call there is caught internally), the collected image descriptions, and
the three pass oracles. -/
structure AnalyzeOracle where
  preprocText : String
  imageDescriptions : List String
  pass1 : Nat → ApiOutcome
  pass2 : Nat → Api2Outcome
  pass3 : Api3Outcome

/-- The pass-3 block of `_analyze_internal`: apply the quality score, the
validated corrections and the issues of the verification. -/
def applyCorrections (v : ParsedVerification) (r : AnalysisResult) :
    AnalysisResult :=
  let ra := { r with quality_score := v.quality_score.getD 0 }
  let rb :=
    if v.corrections_category ≠ "" ∧
        v.corrections_category ∈ VALID_CATEGORIES then
      { ra with category := v.corrections_category }
    else ra
  let rc :=
    if v.corrections_sub_category ≠ "" then
      { rb with sub_category := v.corrections_sub_category }
    else rb
  let rd :=
    if v.corrections_priority ≠ "" ∧
        v.corrections_priority ∈ VALID_PRIORITIES then
      { rc with priority := v.corrections_priority }
    else rc
  let rd2 :=
    if v.corrections_title ≠ "" then { rd with title := v.corrections_title }
    else rd
  let rd3 :=
    if v.corrections_summary ≠ "" then
      { rd2 with summary := v.corrections_summary }
    else rd2
  if v.issues ≠ [] then
    { rd3 with review_reasons := rd3.review_reasons ++ v.issues }
  else rd3

/-- Pass 3 guarded by `verification_enabled and confidence < 0.95`. -/
def applyVerification (ve : Bool) (p3 : Api3Outcome) (r : AnalysisResult) :
    AnalysisResult :=
  if ve && decide (r.confidence < (0.95 : Rat)) then
    applyCorrections (pass3Verify r.confidence p3) r
  else { r with quality_score := r.confidence }

/-- The tail of `_analyze_internal`: id prefix, knowledge directory, and
the two manual-review thresholds. -/
def applyFinalFlags (ft : String) (r : AnalysisResult) : AnalysisResult :=
  let r7 := { r with
    id_prefix := ID_PREFIX_MAP ft
    knowledge_dir := KNOWLEDGE_DIR_MAP (ID_PREFIX_MAP ft) }
  let r8 :=
    if r7.confidence < (0.6 : Rat) then
      { r7 with
        needs_manual_review := true
        review_reasons := r7.review_reasons ++
          ["分類confidence低 (" ++ fmt2 r7.confidence ++ ")"] }
    else r7
  if r8.quality_score < (0.6 : Rat) ∧ r8.quality_score > 0 then
    { r8 with
      needs_manual_review := true
      review_reasons := r8.review_reasons ++
        ["品質スコア低 (" ++ fmt2 r8.quality_score ++ ")"] }
  else r8

/-- `ContentAnalyzer._analyze_internal`: the staged pipeline with its
catch-all exception handler turned into explicit error propagation. -/
def analyzeInternal (retryCount : Nat) (ve : Bool)
    (table : List (String × String)) (orc : AnalyzeOracle)
    (content : ExtractedContent) : AnalysisResult :=
  let r0 : AnalysisResult :=
    { source_path := content.source_path
      file_type := content.file_type
      image_descriptions := orc.imageDescriptions }
  let text0 := orc.preprocText
  if text0 = "" ∨ (pyStrip text0).length < 30 then
    { r0 with
      error := "テキスト抽出結果が不十分（30文字未満）"
      needs_manual_review := true
      review_reasons := r0.review_reasons ++ ["テキスト不足"] }
  else
    let text := normalizeTerminology table text0
    let r1 := { r0 with full_text := text }
    match (pass1Classify retryCount text orc.pass1).result with
    | Except.error e =>
      { r1 with
        error := e
        needs_manual_review := true
        review_reasons := r1.review_reasons ++ ["例外: " ++ e] }
    | Except.ok cls =>
      let r2 := { r1 with
        category := cls.category.getD ""
        sub_category := cls.sub_category.getD ""
        priority := cls.priority.getD "中"
        emotion_tags := cls.emotion_tags.getD []
        expression_tags := cls.expression_tags.getD []
        title := cls.title.getD ""
        summary := cls.summary.getD ""
        confidence := cls.confidence.getD 0 }
      let r3 := validateAndFixLabels r2
      match pass2Structure retryCount orc.pass2 with
      | Except.error e =>
        { r3 with
          error := e
          needs_manual_review := true
          review_reasons := r3.review_reasons ++ ["例外: " ++ e] }
      | Except.ok strc =>
        let r4 := { r3 with
          sections := strc.sections.getD []
          qa_pairs := strc.qa_pairs.getD [] }
        let r5 :=
          if r4.sections = [] then
            { r4 with sections :=
              [((if r4.title = "" then "内容" else r4.title),
                (⟨text.data.take 3000⟩ : String))] }
          else r4
        applyFinalFlags content.file_type (applyVerification ve orc.pass3 r5)

/-! ### Concrete fixtures used by the witness theorems -/

/-- A concrete collaborator assignment: `c.mov` has no extractor, `d.txt`
is flagged for review, everything else succeeds. -/
def coW : Collab where
  extract := fun f =>
    if f = "c.mov" then none
    else some { text := "hello content", source_path := f, file_type := "text" }
  analyze := fun ec =>
    { source_path := ec.source_path, file_type := ec.file_type,
      category := "営業スキル", title := "T", id_prefix := "ML",
      knowledge_dir := "articles", confidence := 1, quality_score := 1,
      needs_manual_review := decide (ec.source_path = "d.txt"),
      review_reasons := if ec.source_path = "d.txt" then ["低品質"] else [] }
  render := fun _ eid _ => "---" ++ "\n" ++ "id: " ++ eid ++ "\n" ++ "---"
  sourceName := fun f => f
  ym := "202510"

/-- An intake state with three raw files. -/
def fsW : FS :=
  [(rawP "a.txt", "A"), (rawP "c.mov", "C"), (rawP "d.txt", "D")]

/-- The extraction result of `b.pdf` under `coW`. -/
def ecB : ExtractedContent :=
  { text := "hello content", source_path := "b.pdf", file_type := "text" }

/-- An intake state whose computed destination for `b.pdf` already exists. -/
def fsDup : FS :=
  [(rawP "b.pdf", "B"),
   (⟨Dir.knowledge "articles", "ML_202510_001_T.md"⟩, "already here")]

/-- IO faults that make only the move of `b.txt` into `failed/` fail. -/
def ioFailMove : IOFaults where
  moveOk := fun src dst =>
    !(src == procP "b.txt" && dst == failP "b.txt")
  writeOk := fun _ => true

/-- A collaborator whose extractor rejects `b.txt`. -/
def coNoExtract : Collab where
  extract := fun _ => none
  analyze := fun _ => {}
  render := fun _ _ _ => ""
  sourceName := fun f => f
  ym := "202510"

/-- A pass oracle whose pass 1 always returns a malformed (unparseable)
response and whose pass 2 succeeds: every transient failure is of the
retried kind. -/
def orc4p : AnalyzeOracle where
  preprocText := "0123456789012345678901234567890123456789"
  imageDescriptions := []
  pass1 := fun _ => ApiOutcome.parseErr "Expecting value"
  pass2 := fun _ =>
    Api2Outcome.ok { sections := some [("s", "b")], qa_pairs := some [] }
  pass3 := Api3Outcome.err "skipped"

/-- The same oracle except that pass 1 always raises a timeout, an
exception class the retry loop does not catch. -/
def orc4t : AnalyzeOracle :=
  { orc4p with pass1 := fun _ =>
      ApiOutcome.otherErr "APITimeoutError: Request timed out." }

/-- A collaborator whose analysis stage runs `analyzeInternal` over
`orc4p` with retry count 3. -/
def co4p : Collab where
  extract := fun f =>
    some { text := "0123456789012345678901234567890123456789",
           source_path := f, file_type := "text" }
  analyze := fun ec => analyzeInternal 3 true [] orc4p ec
  render := fun _ _ _ => "md"
  sourceName := fun f => f
  ym := "202501"

/-- The same collaborator over the timeout oracle `orc4t`. -/
def co4t : Collab :=
  { co4p with analyze := fun ec => analyzeInternal 3 true [] orc4t ec }

/-- A one-file intake state. -/
def st4 : PipeState := { fs := [(rawP "a.txt", "A")] }

/-- A well-formed classification dict. -/
def d4w : ParsedClassification :=
  { category := some "営業スキル", sub_category := some "商談",
    priority := some "高", emotion_tags := some [],
    expression_tags := some [], title := some "T", summary := some "S",
    confidence := some (9 / 10), reasoning := some "ok" }

/-- A pass-1 oracle that fails to parse twice and then succeeds. -/
def api4w : Nat → ApiOutcome := fun n =>
  if n < 2 then ApiOutcome.parseErr "Expecting value"
  else ApiOutcome.ok d4w

/-- A concrete extraction. -/
def ec4w : ExtractedContent :=
  { text := "x", source_path := "a.txt", file_type := "text" }

/-- The destination path of the `co4p` run. -/
def out4p : FPath :=
  { dir := Dir.knowledge "articles"
    name := "ML_202501_001_0123456789012345678901234567890123456789.md" }

/-- The success record of the `co4p` run. -/
def r4out : SuccessRecord :=
  { source := "a.txt", output := out4p, category := "営業スキル",
    sub_category := "", priority := "中", confidence := 0,
    quality_score := 0, entry_id := "ML_202501_001" }

/-- The final state of the `co4p` run. -/
def st4out : PipeState :=
  { fs := [(compP "a.txt", "A"), (out4p, "md")]
    success := [r4out]
    manualReview :=
      [{ record := r4out
         reason := "カテゴリ不明: ; 分類confidence低 (0.00)" }]
    writeLog := [out4p] }

/-! ### Facts about Python string stripping -/

lemma pyStrip_data_subset (s : String) : (pyStrip s).data ⊆ s.data := by
  intro c hc
  simp only [pyStrip] at hc
  have h1 := List.dropWhile_sublist (l := (s.data.dropWhile pyIsSpace).reverse)
    (p := pyIsSpace)
  have h2 := List.dropWhile_sublist (l := s.data) (p := pyIsSpace)
  have hc' : c ∈ (s.data.dropWhile pyIsSpace).reverse.dropWhile pyIsSpace := by
    simpa using hc
  have : c ∈ (s.data.dropWhile pyIsSpace).reverse := h1.subset hc'
  have : c ∈ s.data.dropWhile pyIsSpace := by simpa using this
  exact h2.subset this

lemma pyStrip_length_le (s : String) : (pyStrip s).length ≤ s.length := by
  simp only [pyStrip, String.length]
  calc ((s.data.dropWhile pyIsSpace).reverse.dropWhile pyIsSpace).reverse.length
      = ((s.data.dropWhile pyIsSpace).reverse.dropWhile pyIsSpace).length := by
        simp
    _ ≤ (s.data.dropWhile pyIsSpace).reverse.length :=
        (List.dropWhile_sublist _).length_le
    _ = (s.data.dropWhile pyIsSpace).length := by simp
    _ ≤ s.data.length := (List.dropWhile_sublist _).length_le

/-! ### Filesystem lemmas -/

lemma fsGet_cons (e : FPath × String) (fs : FS) (q : FPath) :
    fsGet (e :: fs) q = if e.1 = q then some e.2 else fsGet fs q := by
  by_cases h : e.1 = q
  · have hb : (e.1 == q) = true := beq_iff_eq.mpr h
    simp [fsGet, List.find?, h, hb]
  · have hb : (e.1 == q) = false := beq_eq_false_iff_ne.mpr h
    simp [fsGet, List.find?, h, hb]

lemma fsErase_cons (e : FPath × String) (fs : FS) (p : FPath) :
    fsErase (e :: fs) p =
      if e.1 = p then fsErase fs p else e :: fsErase fs p := by
  by_cases h : e.1 = p
  · have hb : (e.1 == p) = true := beq_iff_eq.mpr h
    simp [fsErase, List.filter, h, hb]
  · have hb : (e.1 == p) = false := beq_eq_false_iff_ne.mpr h
    simp [fsErase, List.filter, h, hb]

lemma fsGet_fsErase (fs : FS) (p q : FPath) :
    fsGet (fsErase fs p) q = if q = p then none else fsGet fs q := by
  induction fs with
  | nil => simp [fsGet, fsErase]
  | cons e fs ih =>
      rw [fsErase_cons]
      by_cases hep : e.1 = p
      · rw [if_pos hep, ih, fsGet_cons]
        by_cases hqp : q = p
        · simp [hqp]
        · rw [if_neg hqp, if_neg hqp]
          rw [if_neg (by rw [hep]; exact fun h => hqp h.symm)]
      · rw [if_neg hep, fsGet_cons, fsGet_cons, ih]
        by_cases heq : e.1 = q
        · rw [if_pos heq, if_pos heq, if_neg (heq ▸ hep ∘ Eq.symm ∘ Eq.symm)]
        · rw [if_neg heq, if_neg heq]

lemma fsGet_fsWrite (fs : FS) (p : FPath) (c : String) (q : FPath) :
    fsGet (fsWrite fs p c) q = if q = p then some c else fsGet fs q := by
  unfold fsWrite
  rw [fsGet_cons]
  by_cases h : q = p
  · simp [h]
  · rw [if_neg (fun hh => h hh.symm), if_neg h, fsGet_fsErase, if_neg h]

lemma fsMove_some {fs : FS} {src : FPath} {c : String} (dst : FPath)
    (h : fsGet fs src = some c) :
    fsMove fs src dst = some (fsWrite (fsErase fs src) dst c) := by
  simp [fsMove, h]

lemma moveF_allOk_some {fs : FS} {src : FPath} {c : String} (dst : FPath)
    (h : fsGet fs src = some c) :
    moveF ioAllOk fs src dst = Except.ok (fsWrite (fsErase fs src) dst c) := by
  simp [moveF, ioAllOk, fsMove_some dst h]

lemma ioAllOk_writeOk (p : FPath) : ioAllOk.writeOk p = true := rfl

/-- Reads after a successful move: the destination holds the moved content,
the source is gone, everything else is untouched. -/
lemma fsGet_moved (fs : FS) (src dst : FPath) (c : String) (q : FPath) :
    fsGet (fsWrite (fsErase fs src) dst c) q =
      if q = dst then some c else if q = src then none else fsGet fs q := by
  rw [fsGet_fsWrite, fsGet_fsErase]

/-! ### Facts about digits, runs and padding -/

lemma natDigitsAux_congr : ∀ (f1 f2 n : Nat), n < f1 → n < f2 →
    natDigitsAux f1 n = natDigitsAux f2 n := by
  intro f1
  induction f1 using Nat.strong_induction_on with
  | _ f1 ih =>
    intro f2 n h1 h2
    cases f1 with
    | zero => omega
    | succ k =>
      cases f2 with
      | zero => omega
      | succ m =>
        simp only [natDigitsAux]
        split
        · rfl
        · next h =>
          have hlt : n / 10 < n := Nat.div_lt_self (by omega) (by omega)
          rw [ih k (by omega) m (n / 10) (by omega) (by omega)]

lemma natDigits_eq (n : Nat) :
    natDigits n =
      if n < 10 then [digitChar n]
      else natDigits (n / 10) ++ [digitChar (n % 10)] := by
  show natDigitsAux (n + 1) n = _
  simp only [natDigitsAux]
  split
  · rfl
  · next h =>
    have hlt : n / 10 < n := Nat.div_lt_self (by omega) (by omega)
    rw [natDigitsAux_congr n (n / 10 + 1) (n / 10) (by omega) (by omega)]
    rfl

lemma numRunsAux_congr : ∀ (f1 f2 : Nat) (l : List Char), l.length ≤ f1 →
    l.length ≤ f2 → numRunsAux f1 l = numRunsAux f2 l := by
  intro f1
  induction f1 using Nat.strong_induction_on with
  | _ f1 ih =>
    intro f2 l h1 h2
    cases l with
    | nil => cases f1 <;> cases f2 <;> rfl
    | cons c cs =>
      cases f1 with
      | zero => simp at h1
      | succ k =>
        cases f2 with
        | zero => simp at h2
        | succ m =>
          have hk : cs.length ≤ k := by simp only [List.length_cons] at h1; omega
          have hm : cs.length ≤ m := by simp only [List.length_cons] at h2; omega
          simp only [numRunsAux]
          split
          · rw [ih k (by omega) m (cs.dropWhile Char.isDigit)
              (le_trans (List.dropWhile_sublist _).length_le hk)
              (le_trans (List.dropWhile_sublist _).length_le hm)]
          · exact ih k (by omega) m cs hk hm

lemma numRuns_cons (c : Char) (cs : List Char) :
    numRuns (c :: cs) =
      if c.isDigit then
        parseDigits (c :: cs.takeWhile Char.isDigit) ::
          numRuns (cs.dropWhile Char.isDigit)
      else numRuns cs := by
  show numRunsAux (c :: cs).length (c :: cs) = _
  simp only [List.length_cons, numRunsAux]
  split
  · rw [numRunsAux_congr cs.length (cs.dropWhile Char.isDigit).length
      (cs.dropWhile Char.isDigit) (List.dropWhile_sublist _).length_le le_rfl]
    rfl
  · rfl

lemma digitVal_digitChar {d : Nat} (hd : d < 10) : digitVal (digitChar d) = d := by
  interval_cases d <;> decide

lemma isDigit_digitChar {d : Nat} (hd : d < 10) : (digitChar d).isDigit = true := by
  interval_cases d <;> decide

lemma parseDigits_append_singleton (ds : List Char) (c : Char) :
    parseDigits (ds ++ [c]) = parseDigits ds * 10 + digitVal c := by
  simp [parseDigits, List.foldl_append]

lemma parseDigits_natDigits (n : Nat) : parseDigits (natDigits n) = n := by
  induction n using Nat.strong_induction_on with
  | _ n ih =>
    rw [natDigits_eq]
    split
    · next h => simp [parseDigits, digitVal_digitChar h]
    · next h =>
      rw [parseDigits_append_singleton,
        ih (n / 10) (Nat.div_lt_self (by omega) (by omega)),
        digitVal_digitChar (Nat.mod_lt _ (by omega))]
      omega

lemma isDigit_natDigits (n : Nat) : ∀ c ∈ natDigits n, c.isDigit = true := by
  induction n using Nat.strong_induction_on with
  | _ n ih =>
    rw [natDigits_eq]
    split
    · next h =>
      intro c hc
      simp only [List.mem_singleton] at hc
      subst hc
      exact isDigit_digitChar h
    · next h =>
      intro c hc
      rcases List.mem_append.mp hc with h1 | h1
      · exact ih (n / 10) (Nat.div_lt_self (by omega) (by omega)) c h1
      · simp only [List.mem_singleton] at h1
        subst h1
        exact isDigit_digitChar (Nat.mod_lt _ (by omega))

lemma natDigits_ne_nil (n : Nat) : natDigits n ≠ [] := by
  rw [natDigits_eq]
  split <;> simp

lemma parseDigits_replicate_zero (k : Nat) (ds : List Char) :
    parseDigits (List.replicate k '0' ++ ds) = parseDigits ds := by
  induction k with
  | zero => simp
  | succ k ih =>
      rw [List.replicate_succ, List.cons_append]
      have hz : (0 : Nat) * 10 + digitVal '0' = 0 := by decide
      simp only [parseDigits, List.foldl_cons] at ih ⊢
      rw [hz]
      exact ih

lemma isDigit_padNum (w n : Nat) : ∀ c ∈ (padNum w n).data, c.isDigit = true := by
  intro c hc
  simp only [padNum, List.mem_append, List.mem_replicate] at hc
  rcases hc with ⟨_, h⟩ | h
  · subst h
    decide
  · exact isDigit_natDigits n c h

lemma parseDigits_padNum (w n : Nat) : parseDigits (padNum w n).data = n := by
  simp [padNum, parseDigits_replicate_zero, parseDigits_natDigits]

lemma padNum_data_ne_nil (w n : Nat) : (padNum w n).data ≠ [] := by
  simp [padNum, natDigits_ne_nil n]

lemma takeWhile_append_all {p : Char → Bool} (xs ys : List Char)
    (h : ∀ x ∈ xs, p x = true) :
    (xs ++ ys).takeWhile p = xs ++ ys.takeWhile p := by
  induction xs with
  | nil => simp
  | cons x xs ih =>
      simp only [List.cons_append, List.takeWhile_cons, h x (by simp)]
      rw [ih (fun a ha => h a (by simp [ha]))]
      simp

lemma takeWhile_eq_nil_of_head {p : Char → Bool} (ys : List Char)
    (h : ∀ c, ys.head? = some c → p c = false) : ys.takeWhile p = [] := by
  cases ys with
  | nil => simp
  | cons y ys => simp [List.takeWhile_cons, h y rfl]

lemma dropWhile_append_stop {p : Char → Bool} (xs : List Char) (y : Char)
    (ys : List Char) (hy : p y = false) :
    (xs ++ y :: ys).dropWhile p = xs.dropWhile p ++ y :: ys := by
  induction xs with
  | nil => simp [List.dropWhile_cons, hy]
  | cons x xs ih =>
      by_cases hx : p x
      · simp [List.dropWhile_cons, hx, ih]
      · simp [List.dropWhile_cons, hx]

lemma mem_numRuns_base (ds b : List Char) (hne : ds ≠ [])
    (hds : ∀ c ∈ ds, c.isDigit = true)
    (hb : ∀ c, b.head? = some c → c.isDigit = false) :
    parseDigits ds ∈ numRuns ('_' :: (ds ++ b)) := by
  rw [numRuns_cons, if_neg (by decide)]
  cases ds with
  | nil => exact absurd rfl hne
  | cons d ds' =>
      rw [List.cons_append, numRuns_cons, if_pos (hds d (by simp))]
      have ht : (ds' ++ b).takeWhile Char.isDigit = ds' := by
        rw [takeWhile_append_all ds' b (fun a ha => hds a (by simp [ha])),
          takeWhile_eq_nil_of_head b hb, List.append_nil]
      rw [ht]
      exact List.mem_cons_self _ _

lemma mem_numRuns_sep (ds b : List Char) (hne : ds ≠ [])
    (hds : ∀ c ∈ ds, c.isDigit = true)
    (hb : ∀ c, b.head? = some c → c.isDigit = false) (a : List Char) :
    parseDigits ds ∈ numRuns (a ++ '_' :: (ds ++ b)) := by
  have main : ∀ (fuel : Nat) (a : List Char), a.length ≤ fuel →
      parseDigits ds ∈ numRuns (a ++ '_' :: (ds ++ b)) := by
    intro fuel
    induction fuel with
    | zero =>
        intro a ha
        have h0 : a = [] := List.length_eq_zero.mp (Nat.le_zero.mp ha)
        subst h0
        simpa using mem_numRuns_base ds b hne hds hb
    | succ fuel ih =>
        intro a ha
        cases a with
        | nil => simpa using mem_numRuns_base ds b hne hds hb
        | cons c a' =>
            rw [List.cons_append, numRuns_cons]
            by_cases hc : c.isDigit
            · rw [if_pos hc, dropWhile_append_stop a' '_' (ds ++ b) (by decide)]
              refine List.mem_cons_of_mem _ ?_
              exact ih (a'.dropWhile Char.isDigit)
                (le_trans (List.dropWhile_sublist _).length_le
                  (Nat.le_of_succ_le_succ ha))
            · rw [if_neg hc]
              exact ih a' (Nat.le_of_succ_le_succ ha)
  exact main a.length a le_rfl

lemma le_foldl_max (xs : List Nat) : ∀ acc, acc ≤ xs.foldl max acc := by
  induction xs with
  | nil => intro acc; simp
  | cons x xs ih =>
      intro acc
      exact le_trans (le_max_left acc x) (ih (max acc x))

lemma mem_le_foldl_max {xs : List Nat} {x : Nat} (hx : x ∈ xs) :
    ∀ acc, x ≤ xs.foldl max acc := by
  induction xs with
  | nil => cases hx
  | cons y ys ih =>
      intro acc
      rcases List.mem_cons.mp hx with h | h
      · subst h
        exact le_trans (le_max_right acc x) (le_foldl_max ys (max acc x))
      · exact ih h (max acc y)

lemma scanFile_mono (pfx : String) (acc : Nat) (f : Option String) :
    acc ≤ scanFile pfx acc f := by
  rcases f with _ | content
  · simp [scanFile]
  · simp only [scanFile]
    split
    · exact le_rfl
    · split
      · exact le_foldl_max _ acc
      · exact le_rfl

lemma le_foldl_scan (pfx : String) (l : List (Option String)) :
    ∀ acc, acc ≤ l.foldl (scanFile pfx) acc := by
  induction l with
  | nil => intro acc; simp
  | cons f l ih =>
      intro acc
      exact le_trans (scanFile_mono pfx acc f) (ih _)

lemma run_le_maxNum {pfx content eid : String} {kb : List (Option String)} {x : Nat}
    (hmem : some content ∈ kb) (hid : fileId content = some eid)
    (hpfx : strStarts pfx eid = true) (hx : x ∈ numRuns eid.data) :
    x ≤ maxNum pfx kb := by
  have main : ∀ (l : List (Option String)) (acc : Nat),
      some content ∈ l → x ≤ l.foldl (scanFile pfx) acc := by
    intro l
    induction l with
    | nil => intro acc h; cases h
    | cons f l ih =>
        intro acc h
        rcases List.mem_cons.mp h with h1 | h1
        · subst h1
          refine le_trans ?_ (le_foldl_scan pfx l _)
          show x ≤ scanFile pfx acc (some content)
          simp only [scanFile, hid, hpfx, if_true]
          exact mem_le_foldl_max hx acc
        · exact ih _ h1
  exact main kb 0 hmem

lemma strStarts_of_append (p : String) (rest : List Char) (s : String)
    (h : s.data = p.data ++ rest) : strStarts p s = true := by
  simp [strStarts, h, List.prefix_append]

lemma strStarts_generate (pfx ym : String) (kb : List (Option String)) :
    strStarts pfx (generate_entry_id pfx ym kb) = true := by
  simp only [generate_entry_id]
  split
  · next h =>
    subst h
    refine strStarts_of_append _ ('_' :: (padNum 3 (maxNum "QA" kb + 1)).data) _ ?_
    rw [String.data_append]
    rfl
  split
  · next h =>
    refine strStarts_of_append _
      ('_' :: (ym.data ++ '_' :: ((padNum 2 (maxNum pfx kb + 1)).data ++ ['_', '0', '1']))) _ ?_
    simp only [String.data_append]
    simp [List.append_assoc]
  split
  · next h =>
    subst h
    refine strStarts_of_append _
      ('_' :: ((padNum 3 (maxNum "BK" kb + 1)).data ++ ['_', 'P', '0', '0', '1'])) _ ?_
    simp only [String.data_append]
    simp [List.append_assoc]
  · refine strStarts_of_append _
      ('_' :: (ym.data ++ '_' :: (padNum 3 (maxNum pfx kb + 1)).data)) _ ?_
    simp only [String.data_append]
    simp [List.append_assoc]

lemma nextNum_mem_runs (pfx ym : String) (kb : List (Option String)) :
    (maxNum pfx kb + 1) ∈ numRuns (generate_entry_id pfx ym kb).data := by
  have base : ∀ (a b : List Char) (w : Nat),
      (∀ c, b.head? = some c → c.isDigit = false) →
      (maxNum pfx kb + 1) ∈
        numRuns (a ++ '_' :: ((padNum w (maxNum pfx kb + 1)).data ++ b)) := by
    intro a b w hb
    have h := mem_numRuns_sep (padNum w (maxNum pfx kb + 1)).data b
      (padNum_data_ne_nil w _) (isDigit_padNum w _) hb a
    rwa [parseDigits_padNum] at h
  have hbnil : ∀ c : Char, ([] : List Char).head? = some c → c.isDigit = false := by
    intro c hc
    cases hc
  have hb01 : ∀ c : Char, (['_', '0', '1'] : List Char).head? = some c →
      c.isDigit = false := by
    intro c hc
    simp at hc
    subst hc
    decide
  have hbP : ∀ c : Char, (['_', 'P', '0', '0', '1'] : List Char).head? = some c →
      c.isDigit = false := by
    intro c hc
    simp at hc
    subst hc
    decide
  simp only [generate_entry_id]
  split
  · have hdata : ("QA_" ++ padNum 3 (maxNum pfx kb + 1)).data
        = ['Q', 'A'] ++ '_' :: ((padNum 3 (maxNum pfx kb + 1)).data ++ ([] : List Char)) := by
      rw [String.data_append, show ("QA_" : String).data = ['Q', 'A', '_'] from rfl]
      simp
    rw [hdata]
    exact base _ _ _ hbnil
  split
  · have hdata : (pfx ++ "_" ++ ym ++ "_" ++ padNum 2 (maxNum pfx kb + 1) ++ "_01").data
        = (pfx.data ++ '_' :: ym.data) ++
            '_' :: ((padNum 2 (maxNum pfx kb + 1)).data ++ ['_', '0', '1']) := by
      simp only [String.data_append]
      simp [List.append_assoc]
    rw [hdata]
    exact base _ _ _ hb01
  split
  · have hdata : ("BK_" ++ padNum 3 (maxNum pfx kb + 1) ++ "_P001").data
        = ['B', 'K'] ++
            '_' :: ((padNum 3 (maxNum pfx kb + 1)).data ++ ['_', 'P', '0', '0', '1']) := by
      simp only [String.data_append]
      simp [List.append_assoc]
    rw [hdata]
    exact base _ _ _ hbP
  · have hdata : (pfx ++ "_" ++ ym ++ "_" ++ padNum 3 (maxNum pfx kb + 1)).data
        = (pfx.data ++ '_' :: ym.data) ++
            '_' :: ((padNum 3 (maxNum pfx kb + 1)).data ++ ([] : List Char)) := by
      simp only [String.data_append]
      simp [List.append_assoc]
    rw [hdata]
    exact base _ _ _ hbnil

lemma foldl_max_eq (xs : List Nat) : ∀ acc, xs.foldl max acc = max acc (xs.foldr max 0) := by
  induction xs with
  | nil => intro acc; simp
  | cons x xs ih =>
      intro acc
      rw [List.foldl_cons, ih, List.foldr_cons, max_assoc]

lemma foldr_max_append (xs ys : List Nat) :
    (xs ++ ys).foldr max 0 = max (xs.foldr max 0) (ys.foldr max 0) := by
  induction xs with
  | nil => simp
  | cons x xs ih => simp [ih, max_assoc]

lemma foldr_max_init (xs : List Nat) (b : Nat) : xs.foldr max b = max (xs.foldr max 0) b := by
  induction xs with
  | nil => simp
  | cons x xs ih => simp [ih, max_assoc]

lemma scanFile_eq_spec (pfx : String) (acc : Nat) (f : Option String) :
    scanFile pfx acc f = max acc ((specRuns pfx f).foldr max 0) := by
  rcases f with _ | content
  · simp [scanFile, specRuns]
  · simp only [scanFile, specRuns, Option.some_bind]
    rcases h : fileId content with _ | eid
    · simp
    · by_cases hs : strStarts pfx eid
      · simp [hs, foldl_max_eq]
      · simp [hs]

lemma maxNum_eq_spec (pfx : String) (kb : List (Option String)) :
    maxNum pfx kb = maxSeenSpec pfx kb := by
  have aux : ∀ (l : List (Option String)) (acc : Nat),
      l.foldl (scanFile pfx) acc = max acc (((l.map (specRuns pfx)).flatten).foldr max 0) := by
    intro l
    induction l with
    | nil => intro acc; simp
    | cons f l ih =>
        intro acc
        rw [List.foldl_cons, ih, scanFile_eq_spec]
        simp only [List.map_cons, List.flatten_cons, List.foldr_append]
        conv_rhs => rw [foldr_max_init]
        rw [max_assoc]
  have hjoin : (kb.map (specRuns pfx)).flatten =
      (((kb.filterMap (fun f => f.bind fileId)).filter
        (fun e => strStarts pfx e)).map (fun e => numRuns e.data)).flatten := by
    induction kb with
    | nil => rfl
    | cons f kb ih =>
        rcases f with _ | content
        · simpa [specRuns] using ih
        · rcases h : fileId content with _ | eid
          · simp [specRuns, h, List.filterMap_cons, ih]
          · by_cases hs : strStarts pfx eid
            · simp [specRuns, h, hs, List.filterMap_cons, ih]
            · simp [specRuns, h, hs, List.filterMap_cons, ih]
  unfold maxNum maxSeenSpec
  rw [aux, hjoin]
  simp

lemma sanitizeFilename_eq (name : String) :
    sanitizeFilename name =
      (if pyStrip ⟨(name.data.filter (fun c => !forbiddenChar c)).take 50⟩ = ""
       then "untitled"
       else pyStrip ⟨(name.data.filter (fun c => !forbiddenChar c)).take 50⟩) := by
  have htrunc :
      (if (⟨name.data.filter (fun c => !forbiddenChar c)⟩ : String).length > 50 then
          (⟨(name.data.filter (fun c => !forbiddenChar c)).take 50⟩ : String)
        else ⟨name.data.filter (fun c => !forbiddenChar c)⟩) =
      ⟨(name.data.filter (fun c => !forbiddenChar c)).take 50⟩ := by
    split
    · rfl
    · next h =>
      have hle : (name.data.filter (fun c => !forbiddenChar c)).length ≤ 50 := by
        simpa [String.length] using Nat.le_of_not_lt h
      simp [List.take_of_length_le hle]
  simp only [sanitizeFilename]
  rw [htrunc]

lemma ne_of_name {p : FPath} {d : Dir} {f : String} (h : p.name ≠ f) :
    p ≠ ⟨d, f⟩ :=
  fun hh => h (by rw [hh])

lemma ne_rawP {p : FPath} {f : String} (h : p.name ≠ f) : p ≠ rawP f :=
  ne_of_name h

lemma ne_procP {p : FPath} {f : String} (h : p.name ≠ f) : p ≠ procP f :=
  ne_of_name h

lemma ne_compP {p : FPath} {f : String} (h : p.name ≠ f) : p ≠ compP f :=
  ne_of_name h

lemma ne_failP {p : FPath} {f : String} (h : p.name ≠ f) : p ≠ failP f :=
  ne_of_name h

lemma ne_of_dir_not_knowledge {p : FPath} {sub n : String}
    (hk : isKnowledge p.dir = false) : p ≠ ⟨Dir.knowledge sub, n⟩ := by
  intro hh
  rw [hh] at hk
  simp [isKnowledge] at hk

lemma handleFailure_proc_ok (f msg : String) (st : PipeState) (c : String)
    (hproc : fsGet st.fs (procP f) = some c) :
    handleFailure ioAllOk f msg st = Except.ok { st with
      fs := fsWrite (fsErase st.fs (procP f)) (failP f) c
      failed := st.failed ++ [mkFail f msg] } := by
  unfold handleFailure
  have hex : fsExists st.fs (procP f) = true := by simp [fsExists, hproc]
  rw [if_pos hex, moveF_allOk_some _ hproc]

lemma fsGet_fsWrite_ne {q p : FPath} (fs : FS) (c : String) (h : q ≠ p) :
    fsGet (fsWrite fs p c) q = fsGet fs q := by
  rw [fsGet_fsWrite, if_neg h]

lemma fsGet_moved_other {q dst src : FPath} (fs : FS) (c : String)
    (h1 : q ≠ dst) (h2 : q ≠ src) :
    fsGet (fsWrite (fsErase fs src) dst c) q = fsGet fs q := by
  rw [fsGet_moved, if_neg h1, if_neg h2]

lemma fsGet_moved_dst (fs : FS) (src dst : FPath) (c : String) :
    fsGet (fsWrite (fsErase fs src) dst c) dst = some c := by
  rw [fsGet_moved, if_pos rfl]

lemma fsGet_moved_src {src dst : FPath} (fs : FS) (c : String)
    (h : src ≠ dst) :
    fsGet (fsWrite (fsErase fs src) dst c) src = none := by
  rw [fsGet_moved, if_neg h, if_pos rfl]

lemma paths_ne (f : String) :
    rawP f ≠ procP f ∧ rawP f ≠ compP f ∧ rawP f ≠ failP f ∧
      procP f ≠ compP f ∧ procP f ≠ failP f ∧ compP f ≠ failP f := by
  refine ⟨?_, ?_, ?_, ?_, ?_, ?_⟩ <;> simp [rawP, procP, compP, failP]

lemma ne_of_isKnowledge {p q : FPath} (hp : isKnowledge p.dir = false)
    (hq : isKnowledge q.dir = true) : p ≠ q := by
  intro h
  rw [h, hq] at hp
  cases hp

lemma isKnowledge_destPath (co : Collab) (fs : FS) (g : String)
    (r : AnalysisResult) : isKnowledge (destPath co fs g r).dir = true := rfl

lemma outcome_fail (st : PipeState) (f msg c₀ : String) :
    oneFileOutcome st { st with
      fs := fsWrite (fsErase (fsWrite (fsErase st.fs (rawP f)) (procP f) c₀)
        (procP f)) (failP f) c₀
      failed := st.failed ++ [mkFail f msg] } f := by
  obtain ⟨h12, h13, h14, h23, h24, h34⟩ := paths_ne f
  refine ⟨Or.inr (Or.inl ⟨_, rfl, rfl, rfl, rfl, rfl⟩), ?_, ?_, ?_, ?_⟩
  · dsimp only
    rw [fsGet_moved_other _ _ h14 h12, fsGet_moved_src _ _ h12]
  · dsimp only
    rw [fsGet_moved_src _ _ h24]
  · refine Or.inr ⟨?_, ?_⟩
    · dsimp only
      rw [fsExists, fsGet_moved_dst]
      rfl
    · dsimp only
      rw [fsGet_moved_other _ _ h34 (Ne.symm h23),
        fsGet_moved_other _ _ (Ne.symm h23) (Ne.symm h13)]
  · intro p hp hk
    dsimp only
    rw [fsGet_moved_other _ _ (ne_failP hp) (ne_procP hp),
      fsGet_moved_other _ _ (ne_procP hp) (ne_rawP hp)]

lemma outcome_skip (st : PipeState) (f c₀ : String) (s : SkipRecord)
    (hs : s.source = f) :
    oneFileOutcome st { st with
      fs := fsWrite (fsErase (fsWrite (fsErase st.fs (rawP f)) (procP f) c₀)
        (procP f)) (compP f) c₀
      skipped := st.skipped ++ [s] } f := by
  obtain ⟨h12, h13, h14, h23, h24, h34⟩ := paths_ne f
  refine ⟨Or.inr (Or.inr ⟨s, hs, rfl, rfl, rfl, rfl⟩), ?_, ?_, ?_, ?_⟩
  · dsimp only
    rw [fsGet_moved_other _ _ h13 h12, fsGet_moved_src _ _ h12]
  · dsimp only
    rw [fsGet_moved_src _ _ h23]
  · refine Or.inl ⟨?_, ?_⟩
    · dsimp only
      rw [fsExists, fsGet_moved_dst]
      rfl
    · dsimp only
      rw [fsGet_moved_other _ _ (Ne.symm h34) (Ne.symm h24),
        fsGet_moved_other _ _ (Ne.symm h24) (Ne.symm h14)]
  · intro p hp hk
    dsimp only
    rw [fsGet_moved_other _ _ (ne_compP hp) (ne_procP hp),
      fsGet_moved_other _ _ (ne_procP hp) (ne_rawP hp)]

lemma outcome_success (st : PipeState) (f c₀ md : String) (outP : FPath)
    (hkn : isKnowledge outP.dir = true) (r : SuccessRecord) (hr : r.source = f)
    (M : List ReviewRecord)
    (hM : M = st.manualReview ∨
      ∃ m : ReviewRecord, m.record = r ∧ M = st.manualReview ++ [m])
    (wl : List FPath) :
    oneFileOutcome st { st with
      fs := fsWrite (fsErase (fsWrite (fsWrite (fsErase st.fs (rawP f))
        (procP f) c₀) outP md) (procP f)) (compP f) c₀
      success := st.success ++ [r]
      manualReview := M
      writeLog := wl } f := by
  obtain ⟨h12, h13, h14, h23, h24, h34⟩ := paths_ne f
  have hraw_out : rawP f ≠ outP := ne_of_isKnowledge rfl hkn
  have hproc_out : procP f ≠ outP := ne_of_isKnowledge rfl hkn
  have hfail_out : failP f ≠ outP := ne_of_isKnowledge rfl hkn
  refine ⟨Or.inl ⟨r, hr, rfl, rfl, rfl, ?_⟩, ?_, ?_, ?_, ?_⟩
  · exact hM
  · dsimp only
    rw [fsGet_moved_other _ _ h13 h12, fsGet_fsWrite_ne _ _ hraw_out,
      fsGet_moved_src _ _ h12]
  · dsimp only
    rw [fsGet_moved_src _ _ h23]
  · refine Or.inl ⟨?_, ?_⟩
    · dsimp only
      rw [fsExists, fsGet_moved_dst]
      rfl
    · dsimp only
      rw [fsGet_moved_other _ _ (Ne.symm h34) (Ne.symm h24),
        fsGet_fsWrite_ne _ _ hfail_out,
        fsGet_moved_other _ _ (Ne.symm h24) (Ne.symm h14)]
  · intro p hp hk
    dsimp only
    rw [fsGet_moved_other _ _ (ne_compP hp) (ne_procP hp),
      fsGet_fsWrite_ne _ _ (ne_of_isKnowledge hk hkn),
      fsGet_moved_other _ _ (ne_procP hp) (ne_rawP hp)]

lemma processSingleFile_allOk (co : Collab) (st : PipeState) (f : String)
    (c₀ : String) (hraw : fsGet st.fs (rawP f) = some c₀) :
    ∃ st', processSingleFile ioAllOk co st f = Except.ok st' ∧
      oneFileOutcome st st' f := by
  have hmv := moveF_allOk_some (procP f) hraw
  set fs1 := fsWrite (fsErase st.fs (rawP f)) (procP f) c₀ with hfs1
  have hproc1 : fsGet fs1 (procP f) = some c₀ := by
    rw [hfs1, fsGet_moved, if_pos rfl]
  rcases hE : co.extract f with _ | ec
  · refine ⟨_, ?_, outcome_fail st f ("未対応フォーマット: " ++ pathSuffix f) c₀⟩
    unfold processSingleFile
    have htb : tryBody ioAllOk co st f = Except.error
        ("未対応フォーマット: " ++ pathSuffix f, { st with fs := fs1 }) := by
      simp only [tryBody, hmv, hE]
    rw [htb]
    exact handleFailure_proc_ok f _ _ c₀ hproc1
  · by_cases hT : isErrorText ec.text = true
    · refine ⟨_, ?_, outcome_fail st f ec.text c₀⟩
      unfold processSingleFile
      have htb : tryBody ioAllOk co st f = Except.error
          (ec.text, { st with fs := fs1 }) := by
        simp only [tryBody, hmv, hE, hT, if_true]
      rw [htb]
      exact handleFailure_proc_ok f _ _ c₀ hproc1
    · by_cases hR : (co.analyze ec).error = ""
      · by_cases hD : fsExists fs1 (destPath co fs1 f (co.analyze ec)) = true
        · refine ⟨_, ?_, outcome_skip st f c₀
            (mkSkip f (destPath co fs1 f (co.analyze ec))) rfl⟩
          unfold processSingleFile
          have htb : tryBody ioAllOk co st f = Except.ok { st with
              fs := fsWrite (fsErase fs1 (procP f)) (compP f) c₀
              skipped := st.skipped ++
                [mkSkip f (destPath co fs1 f (co.analyze ec))] } := by
            simp only [tryBody, hmv, hE, hT, hR, hD, if_true, if_false,
              Bool.false_eq_true, ne_eq, not_true_eq_false, not_false_eq_true,
              moveF_allOk_some (compP f) hproc1]
          rw [htb]
        · have hkd := isKnowledge_destPath co fs1 f (co.analyze ec)
          set outP := destPath co fs1 f (co.analyze ec) with houtP
          set md := co.render (co.analyze ec) (entryIdOf co fs1 (co.analyze ec))
            (co.sourceName f) with hmd
          set rec0 := mkRecord f outP (co.analyze ec)
            (entryIdOf co fs1 (co.analyze ec)) with hrec0
          have hproc2 : fsGet (fsWrite fs1 outP md) (procP f) = some c₀ := by
            rw [fsGet_fsWrite_ne _ _
              (ne_of_isKnowledge (p := procP f) rfl hkd), hproc1]
          by_cases hM : (co.analyze ec).needs_manual_review = true
          · refine ⟨_, ?_, outcome_success st f c₀ md outP hkd rec0 rfl _
              (Or.inr ⟨mkReview rec0 (co.analyze ec).review_reasons, rfl, rfl⟩)
              (st.writeLog ++ [outP])⟩
            unfold processSingleFile
            have htb : tryBody ioAllOk co st f = Except.ok { st with
                fs := fsWrite (fsErase (fsWrite fs1 outP md) (procP f)) (compP f) c₀
                success := st.success ++ [rec0]
                manualReview := st.manualReview ++
                  [mkReview rec0 (co.analyze ec).review_reasons]
                writeLog := st.writeLog ++ [outP] } := by
              simp only [tryBody, hmv, hE, hT, hR, hD, hM, if_true, if_false,
                Bool.false_eq_true, ne_eq, not_true_eq_false, not_false_eq_true,
                ioAllOk_writeOk, ← houtP, ← hmd, ← hrec0,
                moveF_allOk_some (compP f) hproc2]
            rw [htb]
          · refine ⟨_, ?_, outcome_success st f c₀ md outP hkd rec0 rfl _
              (Or.inl rfl) (st.writeLog ++ [outP])⟩
            unfold processSingleFile
            have htb : tryBody ioAllOk co st f = Except.ok { st with
                fs := fsWrite (fsErase (fsWrite fs1 outP md) (procP f)) (compP f) c₀
                success := st.success ++ [rec0]
                writeLog := st.writeLog ++ [outP] } := by
              simp only [tryBody, hmv, hE, hT, hR, hD, hM, if_true, if_false,
                Bool.false_eq_true, ne_eq, not_true_eq_false, not_false_eq_true,
                ioAllOk_writeOk, ← houtP, ← hmd, ← hrec0,
                moveF_allOk_some (compP f) hproc2]
            rw [htb]
      · refine ⟨_, ?_, outcome_fail st f (co.analyze ec).error c₀⟩
        unfold processSingleFile
        have htb : tryBody ioAllOk co st f = Except.error
            ((co.analyze ec).error, { st with fs := fs1 }) := by
          simp only [tryBody, hmv, hE, hT, if_false, Bool.false_eq_true, ne_eq, hR,
            not_false_eq_true, if_true]
        rw [htb]
        exact handleFailure_proc_ok f _ _ c₀ hproc1

/-- Aggregated facts about a fault-free run over a duplicate-free list of
files all present in `raw/`. -/
lemma runFiles_allOk (co : Collab) :
    ∀ (files : List String) (st : PipeState),
      files.Nodup →
      (∀ f ∈ files, fsExists st.fs (rawP f) = true) →
      ∃ st', runFiles ioAllOk co st files = Except.ok st' ∧
        (st'.success.length + st'.failed.length + st'.skipped.length
          = st.success.length + st.failed.length + st.skipped.length
            + files.length) ∧
        (∀ p : FPath, isKnowledge p.dir = false → p.name ∉ files →
          fsGet st'.fs p = fsGet st.fs p) ∧
        (∀ f ∈ files,
          fsGet st'.fs (rawP f) = none ∧
          fsGet st'.fs (procP f) = none ∧
          ((fsExists st'.fs (compP f) = true ∧
              fsGet st'.fs (failP f) = fsGet st.fs (failP f)) ∨
            (fsExists st'.fs (failP f) = true ∧
              fsGet st'.fs (compP f) = fsGet st.fs (compP f)))) ∧
        (∃ (newS : List SuccessRecord) (newF : List FailRecord)
            (newK : List SkipRecord) (newM : List ReviewRecord),
          st'.success = st.success ++ newS ∧
          st'.failed = st.failed ++ newF ∧
          st'.skipped = st.skipped ++ newK ∧
          st'.manualReview = st.manualReview ++ newM ∧
          (∀ r ∈ newS, r.source ∈ files) ∧
          (∀ e ∈ newF, e.source ∈ files) ∧
          (∀ s ∈ newK, s.source ∈ files) ∧
          (∀ m ∈ newM, m.record ∈ newS ∧
            (∀ e ∈ newF, e.source ≠ m.record.source) ∧
            (∀ s ∈ newK, s.source ≠ m.record.source))) := by
  intro files
  induction files with
  | nil =>
      intro st _ _
      refine ⟨st, rfl, by simp, fun p _ _ => rfl, by simp,
        [], [], [], [], by simp, by simp, by simp, by simp,
        by simp, by simp, by simp, by simp⟩
  | cons f rest ih =>
      intro st hnd hraw
      have hndr : rest.Nodup := (List.nodup_cons.mp hnd).2
      have hfnr : f ∉ rest := (List.nodup_cons.mp hnd).1
      obtain ⟨c₀, hc₀⟩ : ∃ c, fsGet st.fs (rawP f) = some c := by
        have hx := hraw f (by simp)
        rcases h : fsGet st.fs (rawP f) with _ | c
        · rw [fsExists, h] at hx
          cases hx
        · exact ⟨c, rfl⟩
      obtain ⟨st1, hps, hrep, hraw1, hproc1, hterm1, hframe1⟩ :=
        processSingleFile_allOk co st f c₀ hc₀
      have hraw_rest : ∀ g ∈ rest, fsExists st1.fs (rawP g) = true := by
        intro g hg
        have hne : (rawP g).name ≠ f := by
          simp only [rawP]
          intro hgf
          exact hfnr (hgf ▸ hg)
        rw [fsExists, hframe1 _ hne rfl]
        exact hraw g (by simp [hg])
      obtain ⟨st', hrun, hlen, hframe, hterm, hnew⟩ := ih st1 hndr hraw_rest
      have hrunF : runFiles ioAllOk co st (f :: rest) = Except.ok st' := by
        simp only [runFiles, hps, hrun]
      have hname_f : f ∉ rest := hfnr
      have hkr : fsGet st'.fs (rawP f) = fsGet st1.fs (rawP f) :=
        hframe _ rfl hname_f
      have hkp : fsGet st'.fs (procP f) = fsGet st1.fs (procP f) :=
        hframe _ rfl hname_f
      have hkc : fsGet st'.fs (compP f) = fsGet st1.fs (compP f) :=
        hframe _ rfl hname_f
      have hkf : fsGet st'.fs (failP f) = fsGet st1.fs (failP f) :=
        hframe _ rfl hname_f
      refine ⟨st', hrunF, ?_, ?_, ?_, ?_⟩
      · rcases hrep with ⟨r, _, hS, hF, hK, _⟩ | ⟨e, _, hF, hS, hK, _⟩ |
          ⟨s, _, hK, hS, hF, _⟩ <;>
          rw [hS, hF, hK] at hlen <;>
          simp only [List.length_append, List.length_cons,
            List.length_nil] at hlen ⊢ <;> omega
      · intro p hk hp
        have hp1 : p.name ∉ rest := fun h => hp (by simp [h])
        have hp2 : p.name ≠ f := fun h => hp (by simp [h])
        rw [hframe p hk hp1, hframe1 p hp2 hk]
      · intro g hg
        rcases List.mem_cons.mp hg with hgf | hgr
        · subst hgf
          refine ⟨?_, ?_, ?_⟩
          · rw [hkr]
            exact hraw1
          · rw [hkp]
            exact hproc1
          · rcases hterm1 with ⟨hc, hfp⟩ | ⟨hc, hfp⟩
            · refine Or.inl ⟨?_, ?_⟩
              · rw [fsExists, hkc]
                exact hc
              · rw [hkf, hfp]
            · refine Or.inr ⟨?_, ?_⟩
              · rw [fsExists, hkf]
                exact hc
              · rw [hkc, hfp]
        · have hgne : g ≠ f := fun h => hfnr (h ▸ hgr)
          obtain ⟨hr, hp, ht⟩ := hterm g hgr
          refine ⟨hr, hp, ?_⟩
          have hbf : fsGet st1.fs (failP g) = fsGet st.fs (failP g) :=
            hframe1 _ hgne rfl
          have hbc : fsGet st1.fs (compP g) = fsGet st.fs (compP g) :=
            hframe1 _ hgne rfl
          rcases ht with ⟨hc, hfp⟩ | ⟨hc, hfp⟩
          · exact Or.inl ⟨hc, by rw [hfp, hbf]⟩
          · exact Or.inr ⟨hc, by rw [hfp, hbc]⟩
      · obtain ⟨nS, nF, nK, nM, hS', hF', hK', hM', hmS, hmF, hmK, hmm⟩ := hnew
        rcases hrep with ⟨r, hrsrc, hS, hF, hK, hMv⟩ | ⟨e, hesrc, hF, hS, hK, hMv⟩ |
          ⟨s, hssrc, hK, hS, hF, hMv⟩
        · -- success for f
          rcases hMv with hMv | ⟨m, hmrec, hMv⟩
          · refine ⟨r :: nS, nF, nK, nM, ?_, ?_, ?_, ?_, ?_, ?_, ?_, ?_⟩
            · rw [hS', hS]
              simp
            · rw [hF', hF]
            · rw [hK', hK]
            · rw [hM', hMv]
            · intro r' hr'
              rcases List.mem_cons.mp hr' with h | h
              · subst h
                simp [hrsrc]
              · simp [hmS r' h]
            · intro e' he'
              simp [hmF e' he']
            · intro s' hs'
              simp [hmK s' hs']
            · intro m' hm'
              obtain ⟨h1, h2, h3⟩ := hmm m' hm'
              exact ⟨List.mem_cons_of_mem _ h1, h2, h3⟩
          · refine ⟨r :: nS, nF, nK, m :: nM, ?_, ?_, ?_, ?_, ?_, ?_, ?_, ?_⟩
            · rw [hS', hS]
              simp
            · rw [hF', hF]
            · rw [hK', hK]
            · rw [hM', hMv]
              simp
            · intro r' hr'
              rcases List.mem_cons.mp hr' with h | h
              · subst h
                simp [hrsrc]
              · simp [hmS r' h]
            · intro e' he'
              simp [hmF e' he']
            · intro s' hs'
              simp [hmK s' hs']
            · intro m' hm'
              rcases List.mem_cons.mp hm' with h | h
              · subst h
                refine ⟨by simp [hmrec], ?_, ?_⟩
                · intro e' he'
                  rw [hmrec, hrsrc]
                  intro hcon
                  exact hfnr (hcon ▸ hmF e' he')
                · intro s' hs'
                  rw [hmrec, hrsrc]
                  intro hcon
                  exact hfnr (hcon ▸ hmK s' hs')
              · obtain ⟨h1, h2, h3⟩ := hmm m' h
                exact ⟨List.mem_cons_of_mem _ h1, h2, h3⟩
        · -- failure for f
          refine ⟨nS, e :: nF, nK, nM, ?_, ?_, ?_, ?_, ?_, ?_, ?_, ?_⟩
          · rw [hS', hS]
          · rw [hF', hF]
            simp
          · rw [hK', hK]
          · rw [hM', hMv]
          · intro r' hr'
            simp [hmS r' hr']
          · intro e' he'
            rcases List.mem_cons.mp he' with h | h
            · subst h
              simp [hesrc]
            · simp [hmF e' h]
          · intro s' hs'
            simp [hmK s' hs']
          · intro m' hm'
            obtain ⟨h1, h2, h3⟩ := hmm m' hm'
            refine ⟨h1, ?_, h3⟩
            intro e' he'
            rcases List.mem_cons.mp he' with h | h
            · subst h
              rw [hesrc]
              intro hcon
              exact hfnr (hcon ▸ hmS _ h1)
            · exact h2 e' h
        · -- duplicate skip for f
          refine ⟨nS, nF, s :: nK, nM, ?_, ?_, ?_, ?_, ?_, ?_, ?_, ?_⟩
          · rw [hS', hS]
          · rw [hF', hF]
          · rw [hK', hK]
            simp
          · rw [hM', hMv]
          · intro r' hr'
            simp [hmS r' hr']
          · intro e' he'
            simp [hmF e' he']
          · intro s' hs'
            rcases List.mem_cons.mp hs' with h | h
            · subst h
              simp [hssrc]
            · simp [hmK s' h]
          · intro m' hm'
            obtain ⟨h1, h2, h3⟩ := hmm m' hm'
            refine ⟨h1, h2, ?_⟩
            intro s' hs'
            rcases List.mem_cons.mp hs' with h | h
            · subst h
              rw [hssrc]
              intro hcon
              exact hfnr (hcon ▸ hmS _ h1)
            · exact h3 s' h

lemma moveF_some {io : IOFaults} {fs : FS} {src : FPath} {c : String}
    (dst : FPath) (hok : io.moveOk src dst = true)
    (h : fsGet fs src = some c) :
    moveF io fs src dst = Except.ok (fsWrite (fsErase fs src) dst c) := by
  simp [moveF, hok, fsMove_some dst h]

lemma knowledgeFiles_intake_move (fs : FS) (p q : FPath) (c : String)
    (hp : isKnowledge p.dir = false) (hq : isKnowledge q.dir = false) :
    knowledgeFiles (fsWrite (fsErase fs p) q c) = knowledgeFiles fs := by
  simp only [knowledgeFiles, fsWrite, fsErase]
  rw [List.filter_cons_of_neg (by simp [hq])]
  rw [List.filter_filter, List.filter_filter]
  congr 1
  apply List.filter_congr
  intro e _
  have hknow : ∀ (x : FPath), isKnowledge e.1.dir = true →
      isKnowledge x.dir = false → (e.1 == x) = false := by
    intro x hke hx
    rw [beq_eq_false_iff_ne]
    intro hepeq
    rw [hepeq, hx] at hke
    cases hke
  by_cases hk : isKnowledge e.1.dir = true
  · rw [hknow p hk hp, hknow q hk hq]
    simp
  · have hk' : isKnowledge e.1.dir = false := by
      revert hk
      cases isKnowledge e.1.dir <;> simp
    rw [hk']
    simp

lemma destPath_move_intake (co : Collab) (fs : FS) (p q : FPath) (c : String)
    (g : String) (r : AnalysisResult)
    (hp : isKnowledge p.dir = false) (hq : isKnowledge q.dir = false) :
    destPath co (fsWrite (fsErase fs p) q c) g r = destPath co fs g r := by
  unfold destPath entryIdOf
  rw [knowledgeFiles_intake_move fs p q c hp hq]

/-- **C1.** Duplicate handling is non-destructive: when the computed
destination of a processed file already exists at the duplicate check, the
run records exactly one `SkippedDuplicate` outcome for that file (and
nothing in the other lists), moves the source from `processing/` to
`completed/`, performs no write, and leaves the destination content
unchanged. -/
theorem c1_duplicate_skip (co : Collab) (st : PipeState) (f c₀ : String)
    (ec : ExtractedContent)
    (hraw : fsGet st.fs (rawP f) = some c₀)
    (hE : co.extract f = some ec)
    (hT : isErrorText ec.text = false)
    (hR : (co.analyze ec).error = "")
    (hD : fsExists st.fs (destPath co st.fs f (co.analyze ec)) = true) :
    ∃ st', processSingleFile ioAllOk co st f = Except.ok st' ∧
      st'.skipped = st.skipped ++
        [mkSkip f (destPath co st.fs f (co.analyze ec))] ∧
      st'.success = st.success ∧
      st'.failed = st.failed ∧
      st'.manualReview = st.manualReview ∧
      st'.writeLog = st.writeLog ∧
      fsGet st'.fs (destPath co st.fs f (co.analyze ec)) =
        fsGet st.fs (destPath co st.fs f (co.analyze ec)) ∧
      fsExists st'.fs (compP f) = true ∧
      fsGet st'.fs (rawP f) = none ∧
      fsGet st'.fs (procP f) = none := by
  obtain ⟨h12, h13, h14, h23, h24, h34⟩ := paths_ne f
  have hmv := moveF_allOk_some (procP f) hraw
  set fs1 := fsWrite (fsErase st.fs (rawP f)) (procP f) c₀ with hfs1
  have hproc1 : fsGet fs1 (procP f) = some c₀ := by
    rw [hfs1, fsGet_moved, if_pos rfl]
  have hkd := isKnowledge_destPath co st.fs f (co.analyze ec)
  have hdp : destPath co fs1 f (co.analyze ec) =
      destPath co st.fs f (co.analyze ec) := by
    rw [hfs1]
    exact destPath_move_intake co st.fs (rawP f) (procP f) c₀ f
      (co.analyze ec) rfl rfl
  have hgd : fsGet fs1 (destPath co st.fs f (co.analyze ec)) =
      fsGet st.fs (destPath co st.fs f (co.analyze ec)) := by
    rw [hfs1]
    exact fsGet_moved_other _ _
      (Ne.symm (ne_of_isKnowledge (p := procP f) rfl hkd))
      (Ne.symm (ne_of_isKnowledge (p := rawP f) rfl hkd))
  have hD1 : fsExists fs1 (destPath co fs1 f (co.analyze ec)) = true := by
    rw [fsExists] at hD
    rw [hdp, fsExists, hgd]
    exact hD
  have htb : tryBody ioAllOk co st f = Except.ok { st with
      fs := fsWrite (fsErase fs1 (procP f)) (compP f) c₀
      skipped := st.skipped ++
        [mkSkip f (destPath co fs1 f (co.analyze ec))] } := by
    simp only [tryBody, hmv, hE, hT, hR, hD1, if_true, if_false,
      Bool.false_eq_true, ne_eq, not_true_eq_false, not_false_eq_true,
      moveF_allOk_some (compP f) hproc1]
  have hps : processSingleFile ioAllOk co st f = Except.ok { st with
      fs := fsWrite (fsErase fs1 (procP f)) (compP f) c₀
      skipped := st.skipped ++
        [mkSkip f (destPath co fs1 f (co.analyze ec))] } := by
    unfold processSingleFile
    rw [htb]
  refine ⟨_, hps, ?_, rfl, rfl, rfl, rfl, ?_, ?_, ?_, ?_⟩
  · dsimp only
    rw [hdp]
  · dsimp only
    rw [fsGet_moved_other _ _
      (Ne.symm (ne_of_isKnowledge (p := compP f) rfl hkd))
      (Ne.symm (ne_of_isKnowledge (p := procP f) rfl hkd))]
    exact hgd
  · dsimp only
    rw [fsExists, fsGet_moved_dst]
    rfl
  · dsimp only
    rw [fsGet_moved_other _ _ h13 h12, hfs1, fsGet_moved_src _ _ h12]
  · dsimp only
    rw [fsGet_moved_src _ _ h23]

/-- Witness for C1: the destination of `b.pdf` already exists. -/
theorem c1_duplicate_skip_witness :
    ∃ st', processSingleFile ioAllOk coW { fs := fsDup } "b.pdf" =
        Except.ok st' ∧
      st'.skipped = [] ++
        [mkSkip "b.pdf" (destPath coW fsDup "b.pdf" (coW.analyze ecB))] ∧
      st'.success = [] ∧
      st'.failed = [] ∧
      st'.manualReview = [] ∧
      st'.writeLog = [] ∧
      fsGet st'.fs (destPath coW fsDup "b.pdf" (coW.analyze ecB)) =
        fsGet fsDup (destPath coW fsDup "b.pdf" (coW.analyze ecB)) ∧
      fsExists st'.fs (compP "b.pdf") = true ∧
      fsGet st'.fs (rawP "b.pdf") = none ∧
      fsGet st'.fs (procP "b.pdf") = none :=
  c1_duplicate_skip coW { fs := fsDup } "b.pdf" "B" ecB
    (by decide) (by decide) (by decide) (by decide) (by decide)

/-- **C2.** Count conservation: for a fault-free non-dry-run over the
discovered files (distinct names, all present in `raw/`), the run completes
and `len(success) + len(failed) + len(skipped_duplicate)` equals the number
of discovered files; `manual_review` entries do not enter the sum. -/
theorem c2_count_conservation (co : Collab) (fs0 : FS) (files : List String)
    (hnd : files.Nodup)
    (hraw : ∀ f ∈ files, fsExists fs0 (rawP f) = true) :
    ∃ st', runPipeline ioAllOk co fs0 files = Except.ok st' ∧
      st'.success.length + st'.failed.length + st'.skipped.length
        = files.length := by
  obtain ⟨st', hrun, hlen, _⟩ :=
    runFiles_allOk co files { fs := fs0 } hnd hraw
  exact ⟨st', hrun, by simpa using hlen⟩

/-- Witness for C2 on a three-file run (one success, one failure, one
success flagged for review). -/
theorem c2_count_conservation_witness :
    ∃ st', runPipeline ioAllOk coW fsW ["a.txt", "c.mov", "d.txt"] =
        Except.ok st' ∧
      st'.success.length + st'.failed.length + st'.skipped.length = 3 :=
  c2_count_conservation coW fsW ["a.txt", "c.mov", "d.txt"]
    (by decide) (by decide)

/-- **C3.** Exhaustive terminal placement: every discovered file, present
in `raw/` and in no other lifecycle directory at run start, ends in exactly
one of `completed/` or `failed/` and in neither `raw/` nor `processing/`. -/
theorem c3_terminal_placement (co : Collab) (fs0 : FS) (files : List String)
    (hnd : files.Nodup)
    (hraw : ∀ f ∈ files, fsExists fs0 (rawP f) = true)
    (hclean : ∀ f ∈ files,
      fsGet fs0 (compP f) = none ∧ fsGet fs0 (failP f) = none) :
    ∃ st', runPipeline ioAllOk co fs0 files = Except.ok st' ∧
      ∀ f ∈ files,
        fsGet st'.fs (rawP f) = none ∧
        fsGet st'.fs (procP f) = none ∧
        ((fsExists st'.fs (compP f) = true ∧
            fsGet st'.fs (failP f) = none) ∨
          (fsExists st'.fs (failP f) = true ∧
            fsGet st'.fs (compP f) = none)) := by
  obtain ⟨st', hrun, _, _, hterm, _⟩ :=
    runFiles_allOk co files { fs := fs0 } hnd hraw
  refine ⟨st', hrun, ?_⟩
  intro f hf
  obtain ⟨h1, h2, h3⟩ := hterm f hf
  refine ⟨h1, h2, ?_⟩
  rcases h3 with ⟨hc, hfp⟩ | ⟨hc, hfp⟩
  · exact Or.inl ⟨hc, by rw [hfp]; exact (hclean f hf).2⟩
  · exact Or.inr ⟨hc, by rw [hfp]; exact (hclean f hf).1⟩

/-- Witness for C3 on the three-file run. -/
theorem c3_terminal_placement_witness :
    ∃ st', runPipeline ioAllOk coW fsW ["a.txt", "c.mov", "d.txt"] =
        Except.ok st' ∧
      ∀ f ∈ ["a.txt", "c.mov", "d.txt"],
        fsGet st'.fs (rawP f) = none ∧
        fsGet st'.fs (procP f) = none ∧
        ((fsExists st'.fs (compP f) = true ∧
            fsGet st'.fs (failP f) = none) ∨
          (fsExists st'.fs (failP f) = true ∧
            fsGet st'.fs (compP f) = none)) :=
  c3_terminal_placement coW fsW ["a.txt", "c.mov", "d.txt"]
    (by decide) (by decide) (by decide)

/-- **C8.** Manual review refines success: every entry of `manual_review`
carries a record that also appears in `success`, and its source file never
appears in `failed` or `skipped_duplicate`. -/
theorem c8_manual_review_refines_success (co : Collab) (fs0 : FS)
    (files : List String) (hnd : files.Nodup)
    (hraw : ∀ f ∈ files, fsExists fs0 (rawP f) = true) :
    ∃ st', runPipeline ioAllOk co fs0 files = Except.ok st' ∧
      ∀ m ∈ st'.manualReview, m.record ∈ st'.success ∧
        (∀ e ∈ st'.failed, e.source ≠ m.record.source) ∧
        (∀ s ∈ st'.skipped, s.source ≠ m.record.source) := by
  obtain ⟨st', hrun, _, _, _, nS, nF, nK, nM, hS, hF, hK, hM, _, _, _, hmm⟩ :=
    runFiles_allOk co files { fs := fs0 } hnd hraw
  simp only [List.nil_append] at hS hF hK hM
  refine ⟨st', hrun, ?_⟩
  intro m hm
  rw [hM] at hm
  obtain ⟨h1, h2, h3⟩ := hmm m hm
  rw [hS, hF, hK]
  exact ⟨h1, h2, h3⟩

/-- Witness for C8 on the three-file run (`d.txt` is flagged). -/
theorem c8_manual_review_refines_success_witness :
    ∃ st', runPipeline ioAllOk coW fsW ["a.txt", "c.mov", "d.txt"] =
        Except.ok st' ∧
      ∀ m ∈ st'.manualReview, m.record ∈ st'.success ∧
        (∀ e ∈ st'.failed, e.source ≠ m.record.source) ∧
        (∀ s ∈ st'.skipped, s.source ≠ m.record.source) :=
  c8_manual_review_refines_success coW fsW ["a.txt", "c.mov", "d.txt"]
    (by decide) (by decide)

/-- **C5 counterexample.** The `except` handler of `_process_single_file`
does not wrap its own `shutil.move` into `failed/`: when that move raises,
the exception propagates out of the per-file handler instead of being
swallowed.  Here `b.txt` fails extraction and the subsequent move from
`processing/` to `failed/` raises. -/
theorem c5_counterexample :
    processSingleFile ioFailMove coNoExtract
        { fs := [(rawP "b.txt", "B")] } "b.txt" =
      Except.error "OSError: move b.txt" := by
  rfl

/-- **C5 (amended).** The `fail()` transition guards a missing source with
existence checks (`processing/` first, then `raw/`), and when the moves into
`failed/` themselves succeed the handler returns normally, appending exactly
one failure record; but a secondary IO failure of the move itself is not
caught (see the counterexample). -/
theorem c5_fail_transition (io : IOFaults) (f msg : String) (st : PipeState)
    (h1 : io.moveOk (procP f) (failP f) = true)
    (h2 : io.moveOk (rawP f) (failP f) = true) :
    ∃ st', handleFailure io f msg st = Except.ok st' ∧
      st'.failed = st.failed ++ [mkFail f msg] ∧
      st'.success = st.success ∧
      st'.skipped = st.skipped ∧
      st'.manualReview = st.manualReview := by
  unfold handleFailure
  by_cases hp : fsExists st.fs (procP f) = true
  · obtain ⟨c, hc⟩ : ∃ c, fsGet st.fs (procP f) = some c := by
      rcases h : fsGet st.fs (procP f) with _ | c
      · rw [fsExists, h] at hp
        cases hp
      · exact ⟨c, rfl⟩
    rw [if_pos hp, moveF_some (failP f) h1 hc]
    exact ⟨_, rfl, rfl, rfl, rfl, rfl⟩
  · rw [if_neg hp]
    by_cases hr : fsExists st.fs (rawP f) = true
    · obtain ⟨c, hc⟩ : ∃ c, fsGet st.fs (rawP f) = some c := by
        rcases h : fsGet st.fs (rawP f) with _ | c
        · rw [fsExists, h] at hr
          cases hr
        · exact ⟨c, rfl⟩
      rw [if_pos hr, moveF_some (failP f) h2 hc]
      exact ⟨_, rfl, rfl, rfl, rfl, rfl⟩
    · rw [if_neg hr]
      exact ⟨_, rfl, rfl, rfl, rfl, rfl⟩

/-- Witness for the amended C5 with fault-free IO and a file waiting in
`processing/`. -/
theorem c5_fail_transition_witness :
    ∃ st', handleFailure ioAllOk "b.txt" "boom"
        { fs := [(procP "b.txt", "B")] } = Except.ok st' ∧
      st'.failed = [] ++ [mkFail "b.txt" "boom"] ∧
      st'.success = [] ∧
      st'.skipped = [] ∧
      st'.manualReview = [] :=
  c5_fail_transition ioAllOk "b.txt" "boom" { fs := [(procP "b.txt", "B")] }
    (by decide) (by decide)

/-! ### Behavior of the analysis retry loops -/

lemma pass1Go_no_other (rc : Nat) (text : String) (api : Nat → ApiOutcome)
    (h : ∀ i, isOtherErr (api i) = false) :
    ∀ (rem attempt calls : Nat) (sleeps : List Nat),
      ∃ d, (pass1Go rc text api rem attempt calls sleeps).result =
        Except.ok d := by
  intro rem
  induction rem with
  | zero => intro attempt calls sleeps; exact ⟨_, rfl⟩
  | succ rem ih =>
      intro attempt calls sleeps
      rcases hapi : api attempt with d | m | m
      · simp only [pass1Go, hapi]
        by_cases hd : (d.category.isSome && d.confidence.isSome) = true
        · rw [if_pos hd]
          exact ⟨d, rfl⟩
        · rw [if_neg hd]
          exact ih _ _ _
      · simp only [pass1Go, hapi]
        split
        · exact ih _ _ _
        · exact ih _ _ _
      · have := h attempt
        rw [hapi] at this
        simp [isOtherErr] at this

lemma pass1Go_success (rc : Nat) (text : String) (api : Nat → ApiOutcome)
    (d : ParsedClassification) (hc : d.category.isSome = true)
    (hcf : d.confidence.isSome = true) :
    ∀ (k rem attempt calls : Nat) (sleeps : List Nat),
      attempt + rem = rc → k < rem →
      (∀ j, j < k → isParseErr (api (attempt + j)) = true) →
      api (attempt + k) = ApiOutcome.ok d →
      pass1Go rc text api rem attempt calls sleeps =
        { result := Except.ok d, calls := calls + k + 1,
          sleeps := sleeps ++
            (List.range k).map (fun j => 1 * (attempt + j + 1)) } := by
  intro k
  induction k with
  | zero =>
      intro rem attempt calls sleeps hsum hlt _ hk
      rcases rem with _ | rem
      · omega
      · rw [Nat.add_zero] at hk
        simp [pass1Go, hk, hc, hcf]
  | succ k ih =>
      intro rem attempt calls sleeps hsum hlt hpe hk
      rcases rem with _ | rem
      · omega
      · have hp0 : isParseErr (api attempt) = true := by
          have := hpe 0 (by omega)
          simpa using this
        rcases hapi : api attempt with d' | m | m
        · rw [hapi] at hp0
          simp [isParseErr] at hp0
        · simp only [pass1Go, hapi]
          rw [if_pos (by omega)]
          rw [ih rem (attempt + 1) (calls + 1)
            (sleeps ++ [1 * (attempt + 1)]) (by omega) (by omega)
            (fun j hj => by
              have := hpe (j + 1) (by omega)
              rwa [show attempt + (j + 1) = attempt + 1 + j by omega] at this)
            (by rwa [show attempt + 1 + k = attempt + (k + 1) by omega])]
          congr 1
          · omega
          · rw [List.range_succ_eq_map, List.map_cons, List.map_map,
              List.append_assoc]
            congr 1
            rw [List.singleton_append]
            congr 1
            apply List.map_congr_left
            intro a _
            simp only [Function.comp_apply]
            omega
        · rw [hapi] at hp0
          simp [isParseErr] at hp0

lemma pass1Go_exhaust (rc : Nat) (text : String) (api : Nat → ApiOutcome) :
    ∀ (rem attempt calls : Nat) (sleeps : List Nat),
      (∀ j, j < rem → isParseErr (api (attempt + j)) = true) →
      (pass1Go rc text api rem attempt calls sleeps).result =
        Except.ok (pass1Fallback text) ∧
      (pass1Go rc text api rem attempt calls sleeps).calls = calls + rem := by
  intro rem
  induction rem with
  | zero => intro attempt calls sleeps _; exact ⟨rfl, rfl⟩
  | succ rem ih =>
      intro attempt calls sleeps hpe
      have hp0 : isParseErr (api attempt) = true := by
        have := hpe 0 (by omega)
        simpa using this
      rcases hapi : api attempt with d' | m | m
      · rw [hapi] at hp0
        simp [isParseErr] at hp0
      · simp only [pass1Go, hapi]
        have hrest : ∀ j, j < rem → isParseErr (api (attempt + 1 + j)) = true := by
          intro j hj
          have := hpe (j + 1) (by omega)
          rwa [show attempt + (j + 1) = attempt + 1 + j by omega] at this
        split
        · obtain ⟨h1, h2⟩ := ih (attempt + 1) (calls + 1) _ hrest
          exact ⟨h1, by rw [h2]; omega⟩
        · obtain ⟨h1, h2⟩ := ih (attempt + 1) (calls + 1) _ hrest
          exact ⟨h1, by rw [h2]; omega⟩
      · rw [hapi] at hp0
        simp [isParseErr] at hp0

lemma pass2Go_ok (rc : Nat) (api : Nat → Api2Outcome)
    (h : ∀ i, isOtherErr2 (api i) = false) :
    ∀ (rem attempt : Nat),
      ∃ d, pass2Go rc api rem attempt = Except.ok d := by
  intro rem
  induction rem with
  | zero => intro attempt; exact ⟨_, rfl⟩
  | succ rem ih =>
      intro attempt
      rcases hapi : api attempt with d | m | m
      · simp only [pass2Go, hapi]
        by_cases hd : d.sections.isSome = true
        · rw [if_pos hd]
          exact ⟨d, rfl⟩
        · rw [if_neg hd]
          exact ih _
      · simp only [pass2Go, hapi]
        exact ih _
      · have := h attempt
        rw [hapi] at this
        simp [isOtherErr2] at this

lemma validateAndFixLabels_error (r : AnalysisResult) :
    (validateAndFixLabels r).error = r.error := by
  unfold validateAndFixLabels
  dsimp only
  repeat' split <;> try rfl

lemma validateAndFixLabels_needs_of_empty (r : AnalysisResult)
    (h : r.category = "") :
    (validateAndFixLabels r).needs_manual_review = true := by
  unfold validateAndFixLabels
  dsimp only
  rw [h]
  rw [if_neg (show ¬ ("" ∈ VALID_CATEGORIES) from by decide)]
  rw [show fuzzyMatch "" VALID_CATEGORIES = none from by decide]
  repeat' split <;> try rfl

lemma applyCorrections_error (v : ParsedVerification) (r : AnalysisResult) :
    (applyCorrections v r).error = r.error := by
  unfold applyCorrections
  dsimp only
  repeat' split <;> try rfl

lemma applyCorrections_needs (v : ParsedVerification) (r : AnalysisResult) :
    (applyCorrections v r).needs_manual_review = r.needs_manual_review := by
  unfold applyCorrections
  dsimp only
  repeat' split <;> try rfl

lemma applyVerification_error (ve : Bool) (p3 : Api3Outcome)
    (r : AnalysisResult) : (applyVerification ve p3 r).error = r.error := by
  unfold applyVerification
  split
  · rw [applyCorrections_error]
  · rfl

lemma applyVerification_needs (ve : Bool) (p3 : Api3Outcome)
    (r : AnalysisResult) :
    (applyVerification ve p3 r).needs_manual_review =
      r.needs_manual_review := by
  unfold applyVerification
  split
  · rw [applyCorrections_needs]
  · rfl

lemma applyFinalFlags_error (ft : String) (r : AnalysisResult) :
    (applyFinalFlags ft r).error = r.error := by
  unfold applyFinalFlags
  dsimp only
  repeat' split <;> try rfl

lemma applyFinalFlags_needs_mono (ft : String) (r : AnalysisResult)
    (h : r.needs_manual_review = true) :
    (applyFinalFlags ft r).needs_manual_review = true := by
  unfold applyFinalFlags
  dsimp only
  repeat' split <;> try rfl
  all_goals exact h

lemma analyzeInternal_degrade (rc : Nat) (ve : Bool)
    (table : List (String × String)) (orc : AnalyzeOracle)
    (content : ExtractedContent)
    (h0 : ¬ orc.preprocText = "")
    (h30 : ¬ (pyStrip orc.preprocText).length < 30)
    (hp1 : ∀ j, j < rc → isParseErr (orc.pass1 j) = true)
    (hp2 : ∀ i, isOtherErr2 (orc.pass2 i) = false) :
    (analyzeInternal rc ve table orc content).error = "" ∧
    (analyzeInternal rc ve table orc content).needs_manual_review = true := by
  obtain ⟨hr1, _⟩ := pass1Go_exhaust rc
    (normalizeTerminology table orc.preprocText) orc.pass1 rc 0 0 []
    (fun j hj => by simpa using hp1 j hj)
  obtain ⟨d2, hr2⟩ := pass2Go_ok rc orc.pass2 hp2 rc 0
  unfold analyzeInternal
  dsimp only
  rw [if_neg (not_or.mpr ⟨h0, h30⟩)]
  rw [show (pass1Classify rc (normalizeTerminology table orc.preprocText)
    orc.pass1).result =
    Except.ok (pass1Fallback (normalizeTerminology table orc.preprocText))
    from hr1]
  dsimp only
  rw [show pass2Structure rc orc.pass2 = Except.ok d2 from hr2]
  dsimp only
  constructor
  · rw [applyFinalFlags_error, applyVerification_error]
    split <;> (dsimp only; rw [validateAndFixLabels_error])
  · apply applyFinalFlags_needs_mono
    rw [applyVerification_needs]
    split <;> (dsimp only; exact validateAndFixLabels_needs_of_empty _ rfl)

/-- **C4 counterexample.** A timeout in pass 1 is not a retried error
class: the retry loop of `_pass1_classify` catches only JSON-decode and
key errors, so one timeout ends the loop after a single call with an
error result, `_analyze_internal` records the exception, and the pipeline
treats the file as Failed, not Success. -/
theorem c4_counterexample :
    (pass1Classify 3 "t" orc4t.pass1).calls = 1 ∧
    (pass1Classify 3 "t" orc4t.pass1).result =
      Except.error "APITimeoutError: Request timed out." ∧
    processSingleFile ioAllOk co4t st4 "a.txt" =
      Except.ok
        { fs := [(failP "a.txt", "A")]
          failed := [mkFail "a.txt" "APITimeoutError: Request timed out."] } :=
  ⟨rfl, rfl, rfl⟩

/-- **C4 (amended).** Malformed (unparseable or incomplete) analysis
responses are retried up to the fixed retry count with an increasing
backoff delay between parse-error attempts; a successful retry result is
used as is; after exhausting all retries pass 1 returns the designated
low-confidence fallback classification instead of failing, so for any
sequence of such parse-type errors the analysis ends without error,
flagged for manual review, and the file ends as Success — but a timeout
(or any exception outside the caught parse-error classes) is not
retried and fails the file (see the counterexample). -/
theorem c4_retry_and_fallback (rc : Nat) (text : String)
    (api : Nat → ApiOutcome) :
    (∀ (d : ParsedClassification) (k : Nat),
      d.category.isSome = true → d.confidence.isSome = true → k < rc →
      (∀ j, j < k → isParseErr (api j) = true) →
      api k = ApiOutcome.ok d →
      pass1Classify rc text api =
        { result := Except.ok d, calls := k + 1,
          sleeps := (List.range k).map (fun j => 1 * (j + 1)) } ∧
      ((List.range k).map (fun j => 1 * (j + 1))).Pairwise (· < ·)) ∧
    ((∀ j, j < rc → isParseErr (api j) = true) →
      (pass1Classify rc text api).result = Except.ok (pass1Fallback text) ∧
      (pass1Classify rc text api).calls = rc) ∧
    (∀ (ve : Bool) (table : List (String × String)) (orc : AnalyzeOracle)
      (content : ExtractedContent),
      ¬ orc.preprocText = "" → ¬ (pyStrip orc.preprocText).length < 30 →
      (∀ j, j < rc → isParseErr (orc.pass1 j) = true) →
      (∀ i, isOtherErr2 (orc.pass2 i) = false) →
      (analyzeInternal rc ve table orc content).error = "" ∧
      (analyzeInternal rc ve table orc content).needs_manual_review = true) ∧
    (∃ st', processSingleFile ioAllOk co4p st4 "a.txt" = Except.ok st' ∧
      st'.failed = [] ∧ st'.skipped = [] ∧ st'.success.length = 1 ∧
      st'.manualReview.length = 1 ∧
      st'.success.map (fun r => r.confidence) = [0]) := by
  refine ⟨?_, ?_, ?_, ?_⟩
  · intro d k hc hcf hk hpe hok
    have h := pass1Go_success rc text api d hc hcf k rc 0 0 [] (by omega) hk
      (fun j hj => by simpa using hpe j hj) (by simpa using hok)
    constructor
    · unfold pass1Classify
      rw [h]
      congr 1
      · omega
      · simp
    · refine List.Pairwise.map _ ?_ (List.pairwise_lt_range k)
      intro a b hab
      simpa using hab
  · intro hpe
    obtain ⟨h1, h2⟩ := pass1Go_exhaust rc text api rc 0 0 []
      (fun j hj => by simpa using hpe j hj)
    exact ⟨h1, by simpa [pass1Classify] using h2⟩
  · intro ve table orc content h0 h30 hp1 hp2
    exact analyzeInternal_degrade rc ve table orc content h0 h30 hp1 hp2
  · exact ⟨st4out, by with_unfolding_all rfl, rfl, rfl, rfl, rfl, rfl⟩

/-- Witness: two parse failures then a success yield the successful dict
after three calls with backoff sleeps 1 and 2; an all-parse-error oracle
yields the fallback and a flagged, error-free analysis. -/
theorem c4_retry_and_fallback_witness :
    pass1Classify 3 "t" api4w =
      { result := Except.ok d4w, calls := 3, sleeps := [1, 2] } ∧
    (pass1Classify 3 "t" orc4p.pass1).result =
      Except.ok (pass1Fallback "t") ∧
    (pass1Classify 3 "t" orc4p.pass1).calls = 3 ∧
    (analyzeInternal 3 true [] orc4p ec4w).error = "" ∧
    (analyzeInternal 3 true [] orc4p ec4w).needs_manual_review = true := by
  refine ⟨?_, ?_, ?_, ?_, ?_⟩
  · exact ((c4_retry_and_fallback 3 "t" api4w).1 d4w 2 rfl rfl (by decide)
      (by decide) rfl).1.trans rfl
  · exact ((c4_retry_and_fallback 3 "t" orc4p.pass1).2.1 (by decide)).1
  · exact ((c4_retry_and_fallback 3 "t" orc4p.pass1).2.1 (by decide)).2
  · exact ((c4_retry_and_fallback 3 "t" orc4p.pass1).2.2.1 true [] orc4p
      ec4w (by decide) (by decide) (by decide) (fun i => rfl)).1
  · exact ((c4_retry_and_fallback 3 "t" orc4p.pass1).2.2.1 true [] orc4p
      ec4w (by decide) (by decide) (by decide) (fun i => rfl)).2

end KPipe

/-- **C10.** `_sanitize_filename` always returns a non-empty string of at most
50 characters containing none of the forbidden filename characters, and it
returns `"untitled"` exactly when removing the forbidden characters,
truncating to 50 and stripping whitespace leaves the empty string. -/
theorem c10_sanitize_filename (name : String) :
    KPipe.sanitizeFilename name ≠ "" ∧
    (KPipe.sanitizeFilename name).length ≤ 50 ∧
    (∀ c ∈ (KPipe.sanitizeFilename name).data, KPipe.forbiddenChar c = false) ∧
    (KPipe.pyStrip ⟨(name.data.filter (fun c => !KPipe.forbiddenChar c)).take 50⟩ = "" →
      KPipe.sanitizeFilename name = "untitled") := by
  rw [KPipe.sanitizeFilename_eq]
  refine ⟨?_, ?_, ?_, ?_⟩
  · split
    · decide
    · next h => exact h
  · split
    · decide
    · refine le_trans (KPipe.pyStrip_length_le _) ?_
      simp [String.length]
  · intro c hc
    split at hc
    · simp at hc
      rcases hc with h | h | h | h | h | h | h | h <;> subst h <;> decide
    · have h2 := KPipe.pyStrip_data_subset _ hc
      have h3 : c ∈ name.data.filter (fun c => !KPipe.forbiddenChar c) :=
        List.take_subset _ _ h2
      have := (List.mem_filter.mp h3).2
      simpa using this
  · intro h
    rw [h]
    simp

/-- **C6.** ID monotonicity: allocate an id with `generate_entry_id`, write
an entry whose frontmatter id field is that id under the knowledge root,
and a later allocation for the same prefix over any knowledge base that
contains that entry yields a different identifier — a previously issued id
is never reallocated by a re-scan. -/
theorem c6_id_monotonicity (pfx ym ym' content : String)
    (kb kb' : List (Option String))
    (hmem : some content ∈ kb')
    (hid : KPipe.fileId content = some (KPipe.generate_entry_id pfx ym kb)) :
    KPipe.generate_entry_id pfx ym' kb' ≠ KPipe.generate_entry_id pfx ym kb := by
  intro heq
  have hpfx := KPipe.strStarts_generate pfx ym kb
  have hmem' := KPipe.nextNum_mem_runs pfx ym' kb'
  rw [heq] at hmem'
  have hle := KPipe.run_le_maxNum hmem hid hpfx hmem'
  omega

/-- Witness for C6: a first allocation over an empty knowledge base, the
allocated id written into an entry, and a second allocation that sees it. -/
theorem c6_id_monotonicity_witness :
    KPipe.generate_entry_id "ML" "202511" [some "---\nid: ML_202510_001\n---"] ≠
      KPipe.generate_entry_id "ML" "202510" [] :=
  c6_id_monotonicity "ML" "202510" "202511" "---\nid: ML_202510_001\n---"
    [] [some "---\nid: ML_202510_001\n---"] (by decide) (by decide)

/-- **C7.** `generate_entry_id` computes `max_seen` as the maximum over all
embedded numeric runs of every declared frontmatter id starting with the
prefix (skipping unreadable and malformed files), allocates `max_seen + 1`
(so `1` when nothing matches), and formats per prefix: `VID`/`AUD` as
`PREFIX_YYYYMM_NN_01`, `BK` as `BK_NNN_P001`, `QA` as `QA_NNN`, and every
other prefix as `PREFIX_YYYYMM_NNN`. -/
theorem c7_generate_entry_id (pfx ym : String) (kb : List (Option String)) :
    KPipe.maxNum pfx kb = KPipe.maxSeenSpec pfx kb ∧
    KPipe.generate_entry_id "QA" ym kb =
      "QA_" ++ KPipe.padNum 3 (KPipe.maxSeenSpec "QA" kb + 1) ∧
    KPipe.generate_entry_id "VID" ym kb =
      "VID" ++ "_" ++ ym ++ "_" ++ KPipe.padNum 2 (KPipe.maxSeenSpec "VID" kb + 1) ++ "_01" ∧
    KPipe.generate_entry_id "AUD" ym kb =
      "AUD" ++ "_" ++ ym ++ "_" ++ KPipe.padNum 2 (KPipe.maxSeenSpec "AUD" kb + 1) ++ "_01" ∧
    KPipe.generate_entry_id "BK" ym kb =
      "BK_" ++ KPipe.padNum 3 (KPipe.maxSeenSpec "BK" kb + 1) ++ "_P001" ∧
    (pfx ≠ "QA" → pfx ≠ "VID" → pfx ≠ "AUD" → pfx ≠ "BK" →
      KPipe.generate_entry_id pfx ym kb =
        pfx ++ "_" ++ ym ++ "_" ++ KPipe.padNum 3 (KPipe.maxSeenSpec pfx kb + 1)) := by
  refine ⟨KPipe.maxNum_eq_spec pfx kb, ?_, ?_, ?_, ?_, ?_⟩
  · simp [KPipe.generate_entry_id, KPipe.maxNum_eq_spec]
  · simp [KPipe.generate_entry_id, KPipe.maxNum_eq_spec]
  · simp [KPipe.generate_entry_id, KPipe.maxNum_eq_spec]
  · simp [KPipe.generate_entry_id, KPipe.maxNum_eq_spec]
  · intro h1 h2 h3 h4
    simp [KPipe.generate_entry_id, KPipe.maxNum_eq_spec, h1, h2, h3, h4]

/-- Witness for C7 at the generic-prefix branch with prefix `ML`. -/
theorem c7_generate_entry_id_witness :
    KPipe.generate_entry_id "ML" "202510" [] =
      "ML" ++ "_" ++ "202510" ++ "_" ++ KPipe.padNum 3 (KPipe.maxSeenSpec "ML" [] + 1) :=
  (c7_generate_entry_id "ML" "202510" []).2.2.2.2.2
    (by decide) (by decide) (by decide) (by decide)
